import Mathlib

/-!
Verification of `ansible/inventory/dynamic_inventory.py` (iac-multi-environment).

The Python script builds an Ansible inventory document either from Terraform
state (class `TerraformInventory`) or from the AWS EC2 API (class
`EC2Inventory`).  We embed the inventory document as a Python-style dict
(an association list from string keys to entries, where an entry is either
the reserved `_meta` record or a group record), and embed each method as a
Lean function over an oracle `World` describing the results of the external
subprocess and API calls.  Exceptions that the Python code can raise and
catch are embedded with `Except`, where the error value carries the
partially mutated inventory at the point the exception was raised.
-/

/-- A JSON scalar appearing in group `vars` mappings. -/
inductive JVal where
  | s (v : String)
  | b (v : Bool)
deriving DecidableEq

/-- A host-variable record, as assembled by `_extract_host_info_from_terraform`,
`_extract_host_info_from_ec2` and `EC2Inventory._process_instance`.
Keys absent from the corresponding Python dict are modelled as `none`. -/
structure HostInfo where
  ansible_host : String
  ansible_user : String
  ansible_ssh_private_key_file : String
  environment : String
  private_ip : Option String := none
  instance_id : Option String := none
  key_name : Option String := none
  ansible_ssh_common_args : String
  source : Option String := none
  instance_type : Option String := none
  availability_zone : Option String := none
  tags : Option (List (String × String)) := none
deriving DecidableEq

/-- A group record: an optional `hosts` list (the `all` group created by
`TerraformInventory` has no `hosts` key) and an optional `vars` mapping
(groups created by `EC2Inventory._add_to_group` have no `vars` key). -/
structure InvGroup where
  hosts : Option (List String)
  vars : Option (List (String × JVal))
deriving DecidableEq

/-- A top-level entry of the inventory dict: either the `_meta` record
(holding `hostvars`) or a group record. -/
inductive InvEntry where
  | meta (hostvars : List (String × HostInfo))
  | group (g : InvGroup)
deriving DecidableEq

/-- The inventory document: a Python dict from string keys to entries,
modelled as an insertion-ordered association list with unique keys. -/
abbrev Inventory := List (String × InvEntry)

/-- Python dict lookup `d.get(k)`. -/
def dictGet {α : Type} : List (String × α) → String → Option α
  | [], _ => none
  | (k', v') :: rest, k => if k' = k then some v' else dictGet rest k

/-- Python dict membership test `k in d`. -/
def dictMem {α : Type} (d : List (String × α)) (k : String) : Bool :=
  (dictGet d k).isSome

/-- Python dict assignment `d[k] = v`: replaces the value in place if the key
exists, otherwise appends the binding at the end (insertion order). -/
def dictSet {α : Type} : List (String × α) → String → α → List (String × α)
  | [], k, v => [(k, v)]
  | (k', v') :: rest, k, v =>
      if k' = k then (k', v) :: rest else (k', v') :: dictSet rest k v

/-- The freshly initialised inventory `{'_meta': {'hostvars': {}}}` built in
both constructors. -/
def inventory_init : Inventory := [("_meta", InvEntry.meta [])]

/-- The ssh common args string used by the Terraform-backed records and the
`all` group vars. -/
def ssh_args_full : String :=
  "-o StrictHostKeyChecking=no -o UserKnownHostsFile=/dev/null"

/-- The `vars` mapping of the `all` group created by
`TerraformInventory._add_host_to_inventory`. -/
def all_group_vars : List (String × JVal) :=
  [("ansible_python_interpreter", JVal.s "/usr/bin/python3"),
   ("ansible_ssh_common_args", JVal.s ssh_args_full),
   ("ansible_host_key_checking", JVal.b false)]

/-- The `all` group entry as created by `TerraformInventory`: default vars and
no `hosts` key. -/
def allEntry : InvEntry := InvEntry.group ⟨none, some all_group_vars⟩

/-- Python truthiness filter for an optional string: `if not x` is taken for
`None` and for the empty string. -/
def truthyStr : Option String → Option String
  | none => none
  | some s => if s = "" then none else some s

/-- Python `s.replace('.', '_')`: the pattern is the single character `.`,
so the replacement is a character-wise map. -/
def replace_dots (s : String) : String :=
  ⟨s.data.map (fun c => if c = '.' then '_' else c)⟩

/-- An AWS tag record; `tag['Key']` / `tag['Value']` raise `KeyError` when the
corresponding field is absent, which we model with `none`. -/
structure Tag where
  key : Option String
  value : Option String
deriving DecidableEq

/-- An EC2 instance record as returned by `describe_instances`.
`availabilityZone` models `instance.get('Placement', {}).get('AvailabilityZone')`. -/
structure Instance where
  tags : List Tag := []
  publicIpAddress : Option String := none
  privateIpAddress : Option String := none
  instanceId : Option String := none
  instanceType : Option String := none
  keyName : Option String := none
  availabilityZone : Option String := none
deriving DecidableEq

/-- A reservation record; `none` models a reservation whose `'Instances'`
access raises. -/
structure Reservation where
  instances : Option (List Instance)
deriving DecidableEq

/-- Parsed `terraform output -json`: a dict from output names to the content
of their `value` field (`none` when the `value` key is absent or null), so
`outputs.get(k, {}).get('value')` is a lookup followed by a join. -/
abbrev TfOutputs := List (String × Option String)

/-- Embedding of `outputs.get(k, {}).get('value')`. -/
def getOutput (outputs : TfOutputs) (k : String) : Option String :=
  match dictGet outputs k with
  | some v => v
  | none => none

/-- Parsed `terraform show -json`, abstracted to the only field the script
inspects: whether `result.get('values')` is non-null. -/
structure ShowJson where
  hasValues : Bool

/-- Outcome of one `subprocess.run` + `json.loads` sequence inside
`_run_terraform_command`:
`raises` = `CalledProcessError`, `raisesOther` = any other exception during
the run, `emptyStdout` = success with falsy stdout (the method returns `{}`),
`parseFails` = success but `json.loads` raises, `parsed j` = success with
JSON `j`. -/
inductive ProcResult (α : Type) where
  | raises
  | raisesOther
  | emptyStdout
  | parseFails
  | parsed (j : α)

/-- Embedding of `TerraformInventory._run_terraform_command`, with the process working
directory threaded explicitly.  Returns the parsed JSON (or `None`) together
with the working directory after the method returns.  `emptyJson` is the
value denoted by the literal `{}` returned on empty stdout. -/
def run_terraform_command {α : Type} (emptyJson : α)
    (old_cwd terraform_dir : String) (dirExists : Bool)
    (proc : ProcResult α) : Option α × String :=
  if dirExists = false then
    -- `if not os.path.exists(terraform_dir): return None` – no chdir happened
    (none, old_cwd)
  else
    -- os.chdir(terraform_dir)
    let cwd := terraform_dir
    -- try body; except clauses return None; errors leave cwd where the raise
    -- happened (success paths execute `os.chdir(old_cwd)` before returning)
    let body : Option α × String :=
      match proc with
      | .raises => (none, cwd)
      | .raisesOther => (none, cwd)
      | .emptyStdout => (some emptyJson, old_cwd)
      | .parseFails => (none, old_cwd)
      | .parsed j => (some j, old_cwd)
    -- finally: os.chdir(old_cwd) on every exit path
    (body.1, old_cwd)

/-- The value component of `_run_terraform_command` (its result does not
depend on the working directory). -/
def run_terraform_value {α : Type} (emptyJson : α) (dirExists : Bool)
    (proc : ProcResult α) : Option α :=
  (run_terraform_command emptyJson "" "" dirExists proc).1

/-- Oracle for all external effects: per-environment existence of the
Terraform directory, outcomes of the two terraform subprocess invocations,
and the AWS `describe_instances` responses per region for the two distinct
queries made by the script (`none` models a raised exception). -/
structure World where
  dirExists : String → Bool
  showRes : String → ProcResult ShowJson
  outRes : String → ProcResult TfOutputs
  awsTf : String → Option (List Reservation)
  awsEc2 : String → Option (List Reservation)

/-- Embedding of `TerraformInventory._get_terraform_outputs`. -/
def get_terraform_outputs (w : World) (env : String) : Option TfOutputs :=
  run_terraform_value [] (w.dirExists env) (w.outRes env)

/-- Embedding of `TerraformInventory._check_terraform_state`:
`result is not None and result.get('values') is not None`. -/
def check_terraform_state (w : World) (env : String) : Bool :=
  match run_terraform_value ⟨false⟩ (w.dirExists env) (w.showRes env) with
  | some j => j.hasValues
  | none => false

/-- The instance lists of a reservation list, `none` if any reservation
raises on its `'Instances'` access. -/
def collectInstances : List Reservation → Option (List (List Instance))
  | [] => some []
  | r :: rs =>
    match r.instances, collectInstances rs with
    | some is, some rest => some (is :: rest)
    | _, _ => none

/-- Embedding of `TerraformInventory._get_ec2_instances_from_aws`: flattens all instances
of all reservations; any exception (including one raised while iterating a
malformed reservation) makes the whole call return `[]`. -/
def get_ec2_instances_from_aws (resp : Option (List Reservation)) : List Instance :=
  match resp with
  | none => []
  | some resvs =>
    match collectInstances resvs with
    | some ls => ls.flatten
    | none => []

/-- Embedding of `TerraformInventory._extract_host_info_from_terraform`.  A falsy
`public_ip` output aborts with `None`; `key_name` is interpolated into an
f-string, where Python renders `None` as the string `"None"`. -/
def extract_host_info_from_terraform (env : String) (outputs : TfOutputs) :
    Option HostInfo :=
  let public_ip := getOutput outputs "public_ip"
  let private_ip := getOutput outputs "private_ip"
  let instance_id := getOutput outputs "instance_id"
  let key_name := getOutput outputs "key_name"
  match truthyStr public_ip with
  | none => none
  | some pip =>
    some { ansible_host := pip
           ansible_user := "ubuntu"
           ansible_ssh_private_key_file :=
             "~/.ssh/" ++ (key_name.getD "None") ++ ".pem"
           environment := env
           private_ip := private_ip
           instance_id := instance_id
           key_name := key_name
           ansible_ssh_common_args := ssh_args_full }

/-- The tag scan in `_extract_host_info_from_ec2`: find the first tag whose
`Key` is `Environment` and return its `Value`; a tag lacking `Key` (or the
matching tag lacking `Value`) raises `KeyError`. -/
def find_env_tag : List Tag → Except Unit (Option String)
  | [] => .ok none
  | t :: ts =>
    match t.key with
    | none => .error ()
    | some k =>
      if k = "Environment" then
        match t.value with
        | none => .error ()
        | some v => .ok (some v)
      else find_env_tag ts

/-- Embedding of `TerraformInventory._extract_host_info_from_ec2`.  Any exception is
caught and mapped to `None`; a missing/falsy environment tag or public IP
also yields `None`. -/
def extract_host_info_from_ec2 (i : Instance) : Option HostInfo :=
  let key_name := i.keyName.getD "iac-demo-key"
  match find_env_tag i.tags with
  | .error _ => none
  | .ok envOpt =>
    match truthyStr envOpt with
    | none => none
    | some env =>
      match truthyStr i.publicIpAddress with
      | none => none
      | some pip =>
        some { ansible_host := pip
               ansible_user := "ubuntu"
               ansible_ssh_private_key_file := "~/.ssh/" ++ key_name ++ ".pem"
               environment := env
               private_ip := i.privateIpAddress
               instance_id := i.instanceId
               key_name := some key_name
               ansible_ssh_common_args := ssh_args_full
               source := some "aws-api" }

/-- Embedding of `self.inventory['_meta']['hostvars'][hostname] = host_info`: raises
(`.error` with the unchanged inventory) if the `_meta` entry is not the meta
record. -/
def set_hostvar (inv : Inventory) (hostname : String) (host_info : HostInfo) :
    Except Inventory Inventory :=
  match dictGet inv "_meta" with
  | some (.meta hv) =>
      .ok (dictSet inv "_meta" (InvEntry.meta (dictSet hv hostname host_info)))
  | _ => .error inv

/-- Embedding of `if k not in self.inventory: self.inventory[k] = <g>`. -/
def ensure_group (inv : Inventory) (k : String) (g : InvGroup) : Inventory :=
  if dictMem inv k then inv else dictSet inv k (InvEntry.group g)

/-- Embedding of `self.inventory[k]['hosts'].append(hostname)`: raises if the entry at `k`
is not a group with a `hosts` key. -/
def append_group_host (inv : Inventory) (k : String) (hostname : String) :
    Except Inventory Inventory :=
  match dictGet inv k with
  | some (.group g) =>
    match g.hosts with
    | some hs => .ok (dictSet inv k (InvEntry.group ⟨some (hs ++ [hostname]), g.vars⟩))
    | none => .error inv
  | _ => .error inv

/-- Embedding of `TerraformInventory._add_host_to_inventory`.  Note that the `all` group is
created with default `vars` only: the hostname is never appended to any
`all` host list. -/
def add_host_to_inventory (inv : Inventory) (env : String)
    (host_info : HostInfo) : Except Inventory Inventory := do
  let hostname := env ++ "-web-server"
  let inv ← set_hostvar inv hostname host_info
  let inv := ensure_group inv "web_servers" ⟨some [], some []⟩
  let inv ← append_group_host inv "web_servers" hostname
  let inv := ensure_group inv env ⟨some [], some [("environment", JVal.s env)]⟩
  let inv ← append_group_host inv env hostname
  let inv := ensure_group inv "all" ⟨none, some all_group_vars⟩
  pure inv

/-- The fixed environment list `self.terraform_environments`. -/
def tfEnvironments : List String := ["dev", "staging", "prod"]

/-- Embedding of `environments = [specific_env] if specific_env else self.terraform_environments`. -/
def envsOf : Option String → List String
  | some e => [e]
  | none => tfEnvironments

/-- Python truthiness of the parsed outputs dict (`if outputs:`): `None` and
the empty dict are falsy. -/
def truthyOutputs : Option TfOutputs → Option TfOutputs
  | none => none
  | some o => if o.isEmpty then none else some o

/-- The per-environment loop of `TerraformInventory.generate_inventory`,
threading the inventory and `hosts_found`.  An exception escaping
`_add_host_to_inventory` propagates out of the loop. -/
def tf_state_loop (w : World) :
    List String → Inventory → Nat → Except Inventory (Inventory × Nat)
  | [], inv, n => .ok (inv, n)
  | env :: rest, inv, n =>
    if check_terraform_state w env then
      match truthyOutputs (get_terraform_outputs w env) with
      | some outputs =>
        match extract_host_info_from_terraform env outputs with
        | some host_info =>
          match add_host_to_inventory inv env host_info with
          | .ok inv' => tf_state_loop w rest inv' (n + 1)
          | .error inv' => .error inv'
        | none => tf_state_loop w rest inv n
      | none => tf_state_loop w rest inv n
    else tf_state_loop w rest inv n

/-- The AWS-API fallback loop of `TerraformInventory.generate_inventory`:
`if not specific_env or env == specific_env` gates the insertion. -/
def tf_fallback_loop (specific_env : Option String) :
    List Instance → Inventory → Except Inventory Inventory
  | [], inv => .ok inv
  | i :: rest, inv =>
    match extract_host_info_from_ec2 i with
    | some host_info =>
      let env := host_info.environment
      if (match specific_env with | none => true | some se => env == se) then
        match add_host_to_inventory inv env host_info with
        | .ok inv' => tf_fallback_loop specific_env rest inv'
        | .error inv' => .error inv'
      else tf_fallback_loop specific_env rest inv
    | none => tf_fallback_loop specific_env rest inv

/-- The state loop of a full `generate_inventory` run, from the fresh
inventory. -/
def tf_state_result (w : World) (specific_env : Option String) :
    Except Inventory (Inventory × Nat) :=
  tf_state_loop w (envsOf specific_env) inventory_init 0

/-- The inventory component of the state-loop result (for an error, the
state at the raise). -/
def loopInv (w : World) (specific_env : Option String) : Inventory :=
  match tf_state_result w specific_env with
  | .ok (inv, _) => inv
  | .error inv => inv

/-- Embedding of `hosts_found` after the state loop (0 if the loop raised). -/
def loopCount (w : World) (specific_env : Option String) : Nat :=
  match tf_state_result w specific_env with
  | .ok (_, n) => n
  | .error _ => 0

/-- Whether an `Except` result is `.ok`. -/
def exceptOk {ε α : Type} : Except ε α → Bool
  | .ok _ => true
  | .error _ => false

/-- Embedding of `TerraformInventory.generate_inventory`: run the per-environment state
loop, then fall back to the AWS API (fixed region `ap-southeast-1`) only when
`hosts_found == 0`. -/
def tf_generate (w : World) (specific_env : Option String) :
    Except Inventory Inventory :=
  match tf_state_loop w (envsOf specific_env) inventory_init 0 with
  | .error inv => .error inv
  | .ok (inv, hosts_found) =>
    if hosts_found == 0 then
      tf_fallback_loop specific_env
        (get_ec2_instances_from_aws (w.awsTf "ap-southeast-1")) inv
    else .ok inv

/-- Collapse an `Except Inventory Inventory` to the inventory state it
carries. -/
def genInv : Except Inventory Inventory → Inventory
  | .ok inv => inv
  | .error inv => inv

/-- Embedding of `TerraformInventory.get_host_vars`:
`self.inventory['_meta']['hostvars'].get(hostname, {})`.  `none` denotes the
empty record `{}`.  (`main` inlines the same expression for the EC2 source.) -/
def get_host_vars (inv : Inventory) (hostname : String) : Option HostInfo :=
  match dictGet inv "_meta" with
  | some (.meta hv) => dictGet hv hostname
  | _ => none

/-- The `hostvars` mapping under the `_meta` entry (empty if the entry is
missing or not a meta record). -/
def metaHostvars (inv : Inventory) : List (String × HostInfo) :=
  match dictGet inv "_meta" with
  | some (.meta hv) => hv
  | _ => []

/-- The host list of group `k` (empty when the group is absent, is the meta
record, or has no `hosts` key). -/
def groupHosts (inv : Inventory) (k : String) : List String :=
  match dictGet inv k with
  | some (.group g) => g.hosts.getD []
  | _ => []

/-- The tag-dict comprehension
`{tag['Key']: tag['Value'] for tag in instance.get('Tags', [])}`:
raises (`none`) when any tag lacks `Key` or `Value`; later duplicate keys
overwrite earlier ones. -/
def buildTagsAux (acc : List (String × String)) :
    List Tag → Option (List (String × String))
  | [] => some acc
  | t :: ts =>
    match t.key, t.value with
    | some k, some v => buildTagsAux (dictSet acc k v) ts
    | _, _ => none

/-- See `buildTagsAux`. -/
def buildTags (ts : List Tag) : Option (List (String × String)) :=
  buildTagsAux [] ts

/-- Embedding of `EC2Inventory._add_to_group`: create the group with an empty host list on
first use, then append the hostname only if it is not already present. -/
def add_to_group (inv : Inventory) (group_name hostname : String) :
    Except Inventory Inventory :=
  let inv := ensure_group inv group_name ⟨some [], none⟩
  match dictGet inv group_name with
  | some (.group g) =>
    match g.hosts with
    | some hs =>
      .ok (if hostname ∈ hs then inv
           else dictSet inv group_name (InvEntry.group ⟨some (hs ++ [hostname]), g.vars⟩))
    | none => .error inv
  | _ => .error inv

/-- The body of `EC2Inventory._process_instance` before its `except` handler:
`.error` marks a raised exception, carrying the partially mutated
inventory. -/
def process_instance_body (inv : Inventory) (i : Instance) :
    Except Inventory Inventory :=
  match buildTags i.tags with
  | none => .error inv
  | some tags =>
    match truthyStr (dictGet tags "Environment") with
    | none => .ok inv
    | some environment =>
      let hostname := environment ++ "-" ++ ((dictGet tags "Name").getD "unknown")
      match truthyStr i.publicIpAddress with
      | none => .ok inv
      | some pip =>
        let host_vars : HostInfo :=
          { ansible_host := pip
            ansible_user := "ubuntu"
            ansible_ssh_private_key_file :=
              "~/.ssh/" ++ (i.keyName.getD "iac-demo-key") ++ ".pem"
            environment := environment
            private_ip := i.privateIpAddress
            instance_id := i.instanceId
            instance_type := i.instanceType
            availability_zone := i.availabilityZone
            tags := some tags
            ansible_ssh_common_args := "-o StrictHostKeyChecking=no" }
        do
          let inv ← set_hostvar inv hostname host_vars
          let inv ← add_to_group inv "all" hostname
          let inv ← add_to_group inv "web_servers" hostname
          let inv ← add_to_group inv environment hostname
          add_to_group inv
            ("type_" ++ replace_dots (i.instanceType.getD "unknown")) hostname

/-- Embedding of `EC2Inventory._process_instance`: the `except` handler swallows any
exception, so the method always returns with the state the body reached. -/
def process_instance (inv : Inventory) (i : Instance) : Inventory :=
  genInv (process_instance_body inv i)

/-- The reservation loop of `EC2Inventory.generate_inventory`: a malformed
reservation raises out of the loop, and the `except` handler returns the
partial inventory. -/
def ec2_go : Inventory → List Reservation → Inventory
  | inv, [] => inv
  | inv, r :: rs =>
    match r.instances with
    | none => inv
    | some is => ec2_go (is.foldl process_instance inv) rs

/-- Embedding of `EC2Inventory.generate_inventory`: an exception from the API call itself
returns the untouched fresh inventory. -/
def ec2_generate (resp : Option (List Reservation)) : Inventory :=
  match resp with
  | none => inventory_init
  | some resvs => ec2_go inventory_init resvs

/-- The `--source` flag of `main`. -/
inductive Source where
  | terraform
  | ec2

/-- The `--list` dispatch of `main`: the region option is passed only to
`EC2Inventory`; the environment filter only to the Terraform generator. -/
def run_list (src : Source) (region : String) (env : Option String)
    (w : World) : Except Inventory Inventory :=
  match src with
  | .terraform => tf_generate w env
  | .ec2 => .ok (ec2_generate (w.awsEc2 region))

/-- Whether environment `env` yields a host from Terraform state in
`generate_inventory` (state readable, outputs truthy, extraction succeeds). -/
def envSuccess (w : World) (env : String) : Bool :=
  check_terraform_state w env &&
    (match truthyOutputs (get_terraform_outputs w env) with
     | some o => (extract_host_info_from_terraform env o).isSome
     | none => false)

/-- The entry at key `k` is compatible with `_add_to_group`: absent, or a
group with a `hosts` list. -/
def groupKeyOk (inv : Inventory) (k : String) : Bool :=
  match dictGet inv k with
  | none => true
  | some (.group g) => g.hosts.isSome
  | some (.meta _) => false

/-- A sequence of `_add_to_group` calls for one hostname, short-circuiting on
a raised exception (as the calls appear in sequence in
`_process_instance`). -/
def add_chain (inv : Inventory) (ks : List String) (h : String) :
    Except Inventory Inventory :=
  match ks with
  | [] => .ok inv
  | k :: rest =>
    match add_to_group inv k h with
    | .ok inv' => add_chain inv' rest h
    | .error inv' => .error inv'

/-- Well-formedness of the Terraform-backed inventory under construction:
the `_meta` entry is the meta record; every key other than `_meta` and `all`
holds a group with a `hosts` list; the `all` entry, if present, is exactly
the hostless default-vars group. -/
structure TfWF (inv : Inventory) : Prop where
  meta : ∃ hv, dictGet inv "_meta" = some (InvEntry.meta hv)
  groups : ∀ k e, k ≠ "_meta" → k ≠ "all" → dictGet inv k = some e →
    ∃ g hs, e = InvEntry.group g ∧ g.hosts = some hs
  allg : dictGet inv "all" = none ∨ dictGet inv "all" = some allEntry

/-- An environment name that does not collide with the reserved inventory
keys. -/
def SafeEnv (e : String) : Prop :=
  e ≠ "_meta" ∧ e ≠ "all" ∧ e ≠ "web_servers"

/-- The entry at key `k` is a group with a `hosts` list containing `h`. -/
def PresentMem (inv : Inventory) (k h : String) : Prop :=
  ∃ g hs, dictGet inv k = some (InvEntry.group g) ∧ g.hosts = some hs ∧ h ∈ hs

/-- A concrete world where only `dev` has readable Terraform state, with a
public IP output. -/
def wDevState : World :=
  { dirExists := fun _ => true
    showRes := fun e => if e = "dev" then .parsed ⟨true⟩ else .raises
    outRes := fun e =>
      if e = "dev" then
        .parsed [("public_ip", some "1.2.3.4"), ("key_name", some "iac-key")]
      else .raises
    awsTf := fun _ => none
    awsEc2 := fun _ => none }

/-- A running instance tagged `Environment=dev` with the given public IP. -/
def devInstance (ip : String) : Instance :=
  { tags := [⟨some "Environment", some "dev"⟩], publicIpAddress := some ip }

/-- A concrete world with no Terraform state anywhere and two `dev`-tagged
instances returned by the AWS fallback query. -/
def wDupFallback : World :=
  { dirExists := fun _ => false
    showRes := fun _ => .raises
    outRes := fun _ => .raises
    awsTf := fun _ => some [⟨some [devInstance "1.1.1.1", devInstance "2.2.2.2"]⟩]
    awsEc2 := fun _ => none }

/-- A concrete world where nothing is found anywhere. -/
def wEmpty : World :=
  { dirExists := fun _ => false
    showRes := fun _ => .raises
    outRes := fun _ => .raises
    awsTf := fun _ => none
    awsEc2 := fun _ => none }

/-- Variant of `wDevState` with a different AWS response in every region other than
`ap-southeast-1`. -/
def wOtherRegion : World :=
  { wDevState with
    awsTf := fun r =>
      if r = "ap-southeast-1" then none
      else some [⟨some [devInstance "8.8.8.8"]⟩] }

/-- An instance whose `Environment` tag is the reserved key `_meta`. -/
def metaInstance : Instance :=
  { tags := [⟨some "Environment", some "_meta"⟩], publicIpAddress := some "9.9.9.9" }

/-- An instance with a malformed tag record (no `Key` field). -/
def badTagInstance : Instance :=
  { tags := [⟨none, none⟩], publicIpAddress := some "7.7.7.7" }

/-- A `staging`-tagged instance with a public IP. -/
def stagingInstance : Instance :=
  { tags := [⟨some "Environment", some "staging"⟩], publicIpAddress := some "5.6.7.8" }

/-- The host info `_extract_host_info_from_ec2` produces for
`stagingInstance`. -/
def stagingHostInfo : HostInfo :=
  { ansible_host := "5.6.7.8"
    ansible_user := "ubuntu"
    ansible_ssh_private_key_file := "~/.ssh/iac-demo-key.pem"
    environment := "staging"
    key_name := some "iac-demo-key"
    ansible_ssh_common_args := ssh_args_full
    source := some "aws-api" }

/-- A `dev` instance of type `t3.micro` named `web`. -/
def t3Instance : Instance :=
  { tags := [⟨some "Environment", some "dev"⟩, ⟨some "Name", some "web"⟩]
    publicIpAddress := some "3.3.3.3"
    instanceType := some "t3.micro" }

/-- An instance with no public IP address. -/
def privateInstance : Instance :=
  { tags := [⟨some "Environment", some "dev"⟩], publicIpAddress := none }

/-- A world where `dev` has readable state whose outputs lack a public IP. -/
def wNoIp : World :=
  { dirExists := fun _ => true
    showRes := fun e => if e = "dev" then .parsed ⟨true⟩ else .raises
    outRes := fun e =>
      if e = "dev" then .parsed [("instance_id", some "i-123")] else .raises
    awsTf := fun _ => none
    awsEc2 := fun _ => none }

/-! ## Dictionary lemmas -/

theorem dictGet_dictSet_self {α : Type} (d : List (String × α)) (k : String) (v : α) :
    dictGet (dictSet d k v) k = some v := by
  induction d with
  | nil => simp [dictSet, dictGet]
  | cons p rest ih =>
    obtain ⟨ka, va⟩ := p
    by_cases h : ka = k <;> simp [dictSet, dictGet, h, ih]

theorem dictGet_dictSet_ne {α : Type} (d : List (String × α)) (k k' : String) (v : α)
    (h : k' ≠ k) : dictGet (dictSet d k v) k' = dictGet d k' := by
  induction d with
  | nil => simp [dictSet, dictGet, Ne.symm h]
  | cons p rest ih =>
    obtain ⟨ka, va⟩ := p
    by_cases hk : ka = k
    · subst hk; simp [dictSet, dictGet, Ne.symm h]
    · simp [dictSet, dictGet, hk, ih]

theorem dictSet_eq_of_get {α : Type} {d : List (String × α)} {k : String} {v : α}
    (h : dictGet d k = some v) : dictSet d k v = d := by
  induction d with
  | nil => simp [dictGet] at h
  | cons p rest ih =>
    obtain ⟨ka, va⟩ := p
    by_cases hk : ka = k
    · subst hk
      simp [dictGet] at h
      simp [dictSet, h]
    · simp [dictGet, hk] at h
      simp [dictSet, hk, ih h]

theorem dictGet_isSome_dictSet {α : Type} (d : List (String × α)) (k k' : String) (v : α)
    (h : (dictGet d k').isSome = true) : (dictGet (dictSet d k v) k').isSome = true := by
  by_cases hk : k' = k
  · subst hk; simp [dictGet_dictSet_self]
  · rwa [dictGet_dictSet_ne _ _ _ _ hk]

/-! ## C5: the working directory is restored on every exit path -/

/-- C5: for every execution of `_run_terraform_command` — success, tool
failure, JSON parse failure, or unexpected error — the working directory
after the routine returns equals the working directory from before it was
entered. -/
theorem run_terraform_command_restores_cwd {α : Type} (emptyJson : α)
    (old_cwd terraform_dir : String) (dirExists : Bool) (proc : ProcResult α) :
    (run_terraform_command emptyJson old_cwd terraform_dir dirExists proc).2 = old_cwd := by
  unfold run_terraform_command
  split <;> rfl

/-! ## C10: the region option has no effect on the Terraform-backed source -/

theorem check_terraform_state_congr {w₁ w₂ : World} (hd : w₁.dirExists = w₂.dirExists)
    (hs : w₁.showRes = w₂.showRes) (env : String) :
    check_terraform_state w₁ env = check_terraform_state w₂ env := by
  unfold check_terraform_state
  rw [hd, hs]

theorem get_terraform_outputs_congr {w₁ w₂ : World} (hd : w₁.dirExists = w₂.dirExists)
    (ho : w₁.outRes = w₂.outRes) (env : String) :
    get_terraform_outputs w₁ env = get_terraform_outputs w₂ env := by
  unfold get_terraform_outputs
  rw [hd, ho]

theorem tf_state_loop_congr {w₁ w₂ : World} (hd : w₁.dirExists = w₂.dirExists)
    (hs : w₁.showRes = w₂.showRes) (ho : w₁.outRes = w₂.outRes) :
    ∀ (L : List String) (inv : Inventory) (n : Nat),
      tf_state_loop w₁ L inv n = tf_state_loop w₂ L inv n := by
  intro L
  induction L with
  | nil => intro inv n; rfl
  | cons env rest ih =>
    intro inv n
    rw [tf_state_loop, tf_state_loop,
        check_terraform_state_congr hd hs env, get_terraform_outputs_congr hd ho env]
    by_cases hc : check_terraform_state w₂ env
    · simp only [hc, if_true]
      cases h1 : truthyOutputs (get_terraform_outputs w₂ env) with
      | none => simp only [h1]; exact ih inv n
      | some o =>
        simp only [h1]
        cases h2 : extract_host_info_from_terraform env o with
        | none => simp only [h2]; exact ih inv n
        | some hi =>
          simp only [h2]
          cases h3 : add_host_to_inventory inv env hi with
          | ok inv' => simp only [h3]; exact ih inv' (n + 1)
          | error inv' => simp only [h3]
    · simp only [hc, if_false]
      exact ih inv n

theorem tf_generate_congr {w₁ w₂ : World} (hd : w₁.dirExists = w₂.dirExists)
    (hs : w₁.showRes = w₂.showRes) (ho : w₁.outRes = w₂.outRes)
    (ha : w₁.awsTf "ap-southeast-1" = w₂.awsTf "ap-southeast-1")
    (se : Option String) : tf_generate w₁ se = tf_generate w₂ se := by
  unfold tf_generate
  rw [tf_state_loop_congr hd hs ho, ha]

/-- C10: the command-line region option has no effect on the state-backed
generator: `run_list` with the terraform source ignores the region entirely,
and the state-backed generator reads the AWS API only at the fixed region
`ap-southeast-1`, so two worlds differing only in other regions produce the
same document. -/
theorem region_no_effect_on_terraform_source :
    (∀ (w : World) (env : Option String) (r₁ r₂ : String),
        run_list Source.terraform r₁ env w = run_list Source.terraform r₂ env w) ∧
    (∀ (w₁ w₂ : World) (env : Option String),
        w₁.dirExists = w₂.dirExists → w₁.showRes = w₂.showRes →
        w₁.outRes = w₂.outRes →
        w₁.awsTf "ap-southeast-1" = w₂.awsTf "ap-southeast-1" →
        tf_generate w₁ env = tf_generate w₂ env) :=
  ⟨fun _ _ _ _ => rfl,
   fun _ _ env hd hs ho ha => tf_generate_congr hd hs ho ha env⟩

/-- Witness for C10 at concrete worlds: `wOtherRegion` differs from
`wDevState` in every region except `ap-southeast-1`, yet the state-backed
documents agree. -/
theorem region_no_effect_witness :
    run_list Source.terraform "us-east-1" none wDevState
      = run_list Source.terraform "eu-west-1" none wDevState ∧
    tf_generate wDevState none = tf_generate wOtherRegion none :=
  ⟨region_no_effect_on_terraform_source.1 wDevState none "us-east-1" "eu-west-1",
   region_no_effect_on_terraform_source.2 wDevState wOtherRegion none
     rfl rfl rfl (by decide)⟩

/-! ## C3: the AWS fallback runs iff zero hosts were found from state -/

/-- C3: `generate_inventory` queries the AWS API fallback iff the cumulative
`hosts_found` after the per-environment loop is zero: a non-zero count makes
the result exactly the state-loop document, a zero count makes the result the
fallback loop run over the instances of the fixed-region AWS query, and the
fallback skips any instance whose environment does not match the filter. -/
theorem fallback_iff_zero_hosts :
    (∀ (w : World) (se : Option String),
        exceptOk (tf_state_result w se) = true → loopCount w se ≠ 0 →
        tf_generate w se = Except.ok (loopInv w se)) ∧
    (∀ (w : World) (se : Option String),
        exceptOk (tf_state_result w se) = true → loopCount w se = 0 →
        tf_generate w se =
          tf_fallback_loop se
            (get_ec2_instances_from_aws (w.awsTf "ap-southeast-1")) (loopInv w se)) ∧
    (∀ (e : String) (i : Instance) (rest : List Instance) (inv : Inventory)
        (hi : HostInfo),
        extract_host_info_from_ec2 i = some hi → hi.environment ≠ e →
        tf_fallback_loop (some e) (i :: rest) inv
          = tf_fallback_loop (some e) rest inv) := by
  refine ⟨?_, ?_, ?_⟩
  · intro w se hok hn
    cases h : tf_state_loop w (envsOf se) inventory_init 0 with
    | error inv => simp [exceptOk, tf_state_result, h] at hok
    | ok p =>
      obtain ⟨inv, n⟩ := p
      have hcount : loopCount w se = n := by simp [loopCount, tf_state_result, h]
      rw [hcount] at hn
      have hinv : loopInv w se = inv := by simp [loopInv, tf_state_result, h]
      rw [hinv]
      unfold tf_generate
      simp only [h]
      rw [if_neg (by simpa using hn)]
  · intro w se hok hn
    cases h : tf_state_loop w (envsOf se) inventory_init 0 with
    | error inv => simp [exceptOk, tf_state_result, h] at hok
    | ok p =>
      obtain ⟨inv, n⟩ := p
      have hcount : loopCount w se = n := by simp [loopCount, tf_state_result, h]
      rw [hcount] at hn
      have hinv : loopInv w se = inv := by simp [loopInv, tf_state_result, h]
      rw [hinv]
      unfold tf_generate
      simp only [h]
      rw [if_pos (by simpa using hn)]
  · intro e i rest inv hi hext hne
    conv_lhs => rw [tf_fallback_loop]
    simp only [hext]
    rw [if_neg (by simpa using hne)]

/-- Witness for C3: in `wEmpty` the state loop finds zero hosts so the result
is the fallback-loop document, and with a `dev` filter the fallback skips a
`staging` instance. -/
theorem fallback_iff_zero_hosts_witness :
    tf_generate wEmpty none =
      tf_fallback_loop none
        (get_ec2_instances_from_aws (wEmpty.awsTf "ap-southeast-1"))
        (loopInv wEmpty none) ∧
    tf_fallback_loop (some "dev") [stagingInstance] inventory_init
      = tf_fallback_loop (some "dev") [] inventory_init :=
  ⟨fallback_iff_zero_hosts.2.1 wEmpty none (by decide) (by decide),
   fallback_iff_zero_hosts.2.2 "dev" stagingInstance [] inventory_init
     stagingHostInfo (by decide) (by decide)⟩

/-! ## C4: records lacking a public address are silently dropped -/

/-- C4: under both generators a host record is added only when a public
address is present: extraction fails without one, the per-environment loop,
the fallback loop and the EC2 instance processor all leave the document
unchanged for such an item, and none of them raises. -/
theorem no_public_ip_never_added :
    (∀ (env : String) (outputs : TfOutputs),
        truthyStr (getOutput outputs "public_ip") = none →
        extract_host_info_from_terraform env outputs = none) ∧
    (∀ (w : World) (env : String) (rest : List String) (inv : Inventory)
        (n : Nat) (o : TfOutputs),
        truthyOutputs (get_terraform_outputs w env) = some o →
        truthyStr (getOutput o "public_ip") = none →
        tf_state_loop w (env :: rest) inv n = tf_state_loop w rest inv n) ∧
    (∀ i : Instance, truthyStr i.publicIpAddress = none →
        extract_host_info_from_ec2 i = none) ∧
    (∀ (se : Option String) (i : Instance) (rest : List Instance)
        (inv : Inventory),
        truthyStr i.publicIpAddress = none →
        tf_fallback_loop se (i :: rest) inv = tf_fallback_loop se rest inv) ∧
    (∀ (inv : Inventory) (i : Instance), truthyStr i.publicIpAddress = none →
        process_instance inv i = inv) := by
  have extract_tf : ∀ (env : String) (outputs : TfOutputs),
      truthyStr (getOutput outputs "public_ip") = none →
      extract_host_info_from_terraform env outputs = none := by
    intro env outputs h
    simp [extract_host_info_from_terraform, h]
  have extract_ec2 : ∀ i : Instance, truthyStr i.publicIpAddress = none →
      extract_host_info_from_ec2 i = none := by
    intro i h
    unfold extract_host_info_from_ec2
    cases hfe : find_env_tag i.tags with
    | error e => simp
    | ok envOpt =>
      cases ht : truthyStr envOpt with
      | none => simp [ht]
      | some env => simp [ht, h]
  refine ⟨extract_tf, ?_, extract_ec2, ?_, ?_⟩
  · intro w env rest inv n o h1 h2
    have he := extract_tf env o h2
    by_cases hc : check_terraform_state w env <;>
      simp [tf_state_loop, hc, h1, he]
  · intro se i rest inv h
    have he := extract_ec2 i h
    conv_lhs => rw [tf_fallback_loop]
    rw [he]
  · intro inv i h
    unfold process_instance process_instance_body
    cases hbt : buildTags i.tags with
    | none => simp [genInv]
    | some tags =>
      cases ht : truthyStr (dictGet tags "Environment") with
      | none => simp [ht, genInv]
      | some env => simp [ht, h, genInv]

/-- Witness for C4 at concrete inputs lacking a public address. -/
theorem no_public_ip_witness :
    extract_host_info_from_terraform "dev" [("instance_id", some "i-123")] = none ∧
    tf_state_loop wNoIp ["dev"] inventory_init 0
      = tf_state_loop wNoIp [] inventory_init 0 ∧
    extract_host_info_from_ec2 privateInstance = none ∧
    tf_fallback_loop none [privateInstance] inventory_init
      = tf_fallback_loop none [] inventory_init ∧
    process_instance inventory_init privateInstance = inventory_init :=
  ⟨no_public_ip_never_added.1 "dev" [("instance_id", some "i-123")] (by decide),
   no_public_ip_never_added.2.1 wNoIp "dev" [] inventory_init 0
     [("instance_id", some "i-123")] (by decide) (by decide),
   no_public_ip_never_added.2.2.1 privateInstance (by decide),
   no_public_ip_never_added.2.2.2.1 none privateInstance [] inventory_init (by decide),
   no_public_ip_never_added.2.2.2.2 inventory_init privateInstance (by decide)⟩

/-! ## Lemmas about `set_hostvar` and `_add_to_group` -/

theorem dictSet_dictSet_self {α : Type} (d : List (String × α)) (k : String) (v v' : α) :
    dictSet (dictSet d k v) k v' = dictSet d k v' := by
  induction d with
  | nil => simp [dictSet]
  | cons p rest ih =>
    obtain ⟨ka, va⟩ := p
    by_cases h : ka = k <;> simp [dictSet, h, ih]

theorem except_bind_ok {ε α β : Type} (a : α) (f : α → Except ε β) :
    (Except.ok a >>= f) = f a := rfl

theorem except_bind_error {ε α β : Type} (e : ε) (f : α → Except ε β) :
    ((Except.error e : Except ε α) >>= f) = Except.error e := rfl

theorem groupHosts_entry {inv : Inventory} {k : String} {g : InvGroup} {hs : List String}
    (hg : dictGet inv k = some (InvEntry.group g)) (hh : g.hosts = some hs) :
    groupHosts inv k = hs := by
  unfold groupHosts
  rw [hg]
  simp [hh]

theorem groupHosts_of_get_none {inv : Inventory} {k : String}
    (hg : dictGet inv k = none) : groupHosts inv k = [] := by
  unfold groupHosts
  rw [hg]

theorem groupHosts_of_meta {inv : Inventory} {k : String} {m : List (String × HostInfo)}
    (hg : dictGet inv k = some (InvEntry.meta m)) : groupHosts inv k = [] := by
  unfold groupHosts
  rw [hg]

theorem groupHosts_dictSet_self (inv : Inventory) (k : String) (g : InvGroup) :
    groupHosts (dictSet inv k (InvEntry.group g)) k = g.hosts.getD [] := by
  unfold groupHosts
  rw [dictGet_dictSet_self]

theorem groupHosts_dictSet_ne (inv : Inventory) (k k' : String) (e : InvEntry)
    (h : k' ≠ k) : groupHosts (dictSet inv k e) k' = groupHosts inv k' := by
  unfold groupHosts
  rw [dictGet_dictSet_ne _ _ _ _ h]

theorem set_hostvar_error_eq {inv inv' : Inventory} {h : String} {v : HostInfo}
    (he : set_hostvar inv h v = Except.error inv') : inv' = inv := by
  unfold set_hostvar at he
  cases hg : dictGet inv "_meta" with
  | none => rw [hg] at he; simp at he; exact he.symm
  | some e =>
    cases e with
    | meta m => rw [hg] at he; simp at he
    | group g => rw [hg] at he; simp at he; exact he.symm

theorem set_hostvar_ok_inv {inv inv' : Inventory} {h : String} {v : HostInfo}
    (hok : set_hostvar inv h v = Except.ok inv') :
    ∃ m, dictGet inv "_meta" = some (InvEntry.meta m) ∧
      inv' = dictSet inv "_meta" (InvEntry.meta (dictSet m h v)) := by
  unfold set_hostvar at hok
  cases hg : dictGet inv "_meta" with
  | none => rw [hg] at hok; simp at hok
  | some e =>
    cases e with
    | meta m => rw [hg] at hok; simp at hok; exact ⟨m, rfl, hok.symm⟩
    | group g => rw [hg] at hok; simp at hok

theorem set_hostvar_ok_of_meta {inv : Inventory} {h : String} {v : HostInfo}
    {m : List (String × HostInfo)} (hm : dictGet inv "_meta" = some (InvEntry.meta m)) :
    set_hostvar inv h v =
      Except.ok (dictSet inv "_meta" (InvEntry.meta (dictSet m h v))) := by
  unfold set_hostvar
  rw [hm]

theorem set_hostvar_noop {inv : Inventory} {h : String} {v : HostInfo}
    {m : List (String × HostInfo)} (hm : dictGet inv "_meta" = some (InvEntry.meta m))
    (hv : dictGet m h = some v) : set_hostvar inv h v = Except.ok inv := by
  rw [set_hostvar_ok_of_meta hm, dictSet_eq_of_get hv, dictSet_eq_of_get hm]

theorem set_hostvar_groupHosts (inv : Inventory) (h : String) (v : HostInfo) (k : String) :
    groupHosts (genInv (set_hostvar inv h v)) k = groupHosts inv k := by
  cases hg : dictGet inv "_meta" with
  | none => unfold set_hostvar; rw [hg]; rfl
  | some e =>
    cases e with
    | group g => unfold set_hostvar; rw [hg]; rfl
    | meta m =>
      rw [set_hostvar_ok_of_meta hg]
      show groupHosts (dictSet inv "_meta" _) k = groupHosts inv k
      by_cases hk : k = "_meta"
      · subst hk
        unfold groupHosts
        rw [dictGet_dictSet_self, hg]
      · exact groupHosts_dictSet_ne _ _ _ _ hk

/-- Exhaustive characterization of `_add_to_group` by the shape of the entry
currently at the group key. -/
theorem add_to_group_cases (inv : Inventory) (k h : String) :
    (∃ g hs, dictGet inv k = some (InvEntry.group g) ∧ g.hosts = some hs ∧
        h ∈ hs ∧ add_to_group inv k h = Except.ok inv) ∨
    (∃ g hs, dictGet inv k = some (InvEntry.group g) ∧ g.hosts = some hs ∧
        h ∉ hs ∧ add_to_group inv k h =
          Except.ok (dictSet inv k (InvEntry.group ⟨some (hs ++ [h]), g.vars⟩))) ∨
    (dictGet inv k = none ∧ add_to_group inv k h =
        Except.ok (dictSet inv k (InvEntry.group ⟨some [h], none⟩))) ∨
    ((∃ m, dictGet inv k = some (InvEntry.meta m)) ∧
        add_to_group inv k h = Except.error inv) ∨
    ((∃ g, dictGet inv k = some (InvEntry.group g) ∧ g.hosts = none) ∧
        add_to_group inv k h = Except.error inv) := by
  cases hg : dictGet inv k with
  | none =>
    refine Or.inr (Or.inr (Or.inl ⟨rfl, ?_⟩))
    have hm : dictMem inv k = false := by simp [dictMem, hg]
    unfold add_to_group ensure_group
    rw [hm]
    simp only [Bool.false_eq_true, if_false, dictGet_dictSet_self,
      dictSet_dictSet_self]
    simp
  | some e =>
    have hm : dictMem inv k = true := by simp [dictMem, hg]
    cases e with
    | meta m =>
      refine Or.inr (Or.inr (Or.inr (Or.inl ⟨⟨m, rfl⟩, ?_⟩)))
      unfold add_to_group ensure_group
      rw [hm]
      simp only [if_true, hg]
    | group g =>
      cases hh : g.hosts with
      | none =>
        refine Or.inr (Or.inr (Or.inr (Or.inr ⟨⟨g, rfl, hh⟩, ?_⟩)))
        unfold add_to_group ensure_group
        rw [hm]
        simp only [if_true, hg, hh]
      | some hs =>
        by_cases hmem : h ∈ hs
        · refine Or.inl ⟨g, hs, rfl, hh, hmem, ?_⟩
          unfold add_to_group ensure_group
          rw [hm]
          simp only [if_true, hg, hh]
          simp [hmem]
        · refine Or.inr (Or.inl ⟨g, hs, rfl, hh, hmem, ?_⟩)
          unfold add_to_group ensure_group
          rw [hm]
          simp only [if_true, hg, hh]
          simp [hmem]

theorem add_to_group_error_eq {inv inv' : Inventory} {k h : String}
    (he : add_to_group inv k h = Except.error inv') : inv' = inv := by
  rcases add_to_group_cases inv k h with
    ⟨g, hs, hg, hh, hmem, heq⟩ | ⟨g, hs, hg, hh, hmem, heq⟩ | ⟨hg, heq⟩ |
    ⟨hg, heq⟩ | ⟨hg, heq⟩ <;> rw [heq] at he <;> simp at he
  · exact he.symm
  · exact he.symm

theorem add_to_group_meta_preserved {inv : Inventory} {k h : String}
    {m : List (String × HostInfo)}
    (hmeta : dictGet inv "_meta" = some (InvEntry.meta m)) :
    dictGet (genInv (add_to_group inv k h)) "_meta" = some (InvEntry.meta m) := by
  rcases add_to_group_cases inv k h with
    ⟨g, hs, hg, hh, hmem, heq⟩ | ⟨g, hs, hg, hh, hmem, heq⟩ | ⟨hg, heq⟩ |
    ⟨hg, heq⟩ | ⟨hg, heq⟩ <;> rw [heq] <;> unfold genInv
  · exact hmeta
  · have hk : "_meta" ≠ k := by
      intro he; rw [← he, hmeta] at hg; simp at hg
    rw [dictGet_dictSet_ne _ _ _ _ hk]
    exact hmeta
  · have hk : "_meta" ≠ k := by
      intro he; rw [← he, hmeta] at hg; simp at hg
    rw [dictGet_dictSet_ne _ _ _ _ hk]
    exact hmeta
  · exact hmeta
  · exact hmeta

theorem add_to_group_mem_preserved {inv : Inventory} {k h k' h' : String}
    (hmem : h' ∈ groupHosts inv k') :
    h' ∈ groupHosts (genInv (add_to_group inv k h)) k' := by
  rcases add_to_group_cases inv k h with
    ⟨g, hs, hg, hh, hm2, heq⟩ | ⟨g, hs, hg, hh, hm2, heq⟩ | ⟨hg, heq⟩ |
    ⟨hg, heq⟩ | ⟨hg, heq⟩ <;> rw [heq] <;> unfold genInv
  · exact hmem
  · by_cases hk : k' = k
    · subst hk
      rw [groupHosts_entry hg hh] at hmem
      rw [groupHosts_dictSet_self]
      simp
      exact Or.inl hmem
    · rwa [groupHosts_dictSet_ne _ _ _ _ hk]
  · by_cases hk : k' = k
    · subst hk
      rw [groupHosts_of_get_none hg] at hmem
      simp at hmem
    · rwa [groupHosts_dictSet_ne _ _ _ _ hk]
  · exact hmem
  · exact hmem

theorem PresentMem_of_add_ok {inv inv' : Inventory} {k h : String}
    (hok : add_to_group inv k h = Except.ok inv') : PresentMem inv' k h := by
  rcases add_to_group_cases inv k h with
    ⟨g, hs, hg, hh, hmem, heq⟩ | ⟨g, hs, hg, hh, hmem, heq⟩ | ⟨hg, heq⟩ |
    ⟨hg, heq⟩ | ⟨hg, heq⟩ <;> rw [heq] at hok <;> simp at hok
  · exact hok ▸ ⟨g, hs, hg, hh, hmem⟩
  · refine hok ▸ ⟨_, _, dictGet_dictSet_self _ _ _, rfl, ?_⟩
    simp
  · exact hok ▸ ⟨_, _, dictGet_dictSet_self _ _ _, rfl, by simp⟩

theorem PresentMem_preserved_add {inv : Inventory} {k h k' h' : String}
    (hp : PresentMem inv k' h') :
    PresentMem (genInv (add_to_group inv k h)) k' h' := by
  obtain ⟨g0, hs0, hg0, hh0, hmem0⟩ := hp
  rcases add_to_group_cases inv k h with
    ⟨g, hs, hg, hh, hmem, heq⟩ | ⟨g, hs, hg, hh, hmem, heq⟩ | ⟨hg, heq⟩ |
    ⟨hg, heq⟩ | ⟨hg, heq⟩ <;> rw [heq] <;> unfold genInv
  · exact ⟨g0, hs0, hg0, hh0, hmem0⟩
  · by_cases hk : k' = k
    · subst hk
      rw [hg0] at hg
      injection hg with hg
      injection hg with hg
      subst hg
      rw [hh0] at hh
      injection hh with hh
      subst hh
      exact ⟨_, _, dictGet_dictSet_self _ _ _, rfl, by simp [hmem0]⟩
    · exact ⟨g0, hs0, by rw [dictGet_dictSet_ne _ _ _ _ hk]; exact hg0, hh0, hmem0⟩
  · by_cases hk : k' = k
    · subst hk; rw [hg0] at hg; simp at hg
    · exact ⟨g0, hs0, by rw [dictGet_dictSet_ne _ _ _ _ hk]; exact hg0, hh0, hmem0⟩
  · exact ⟨g0, hs0, hg0, hh0, hmem0⟩
  · exact ⟨g0, hs0, hg0, hh0, hmem0⟩

theorem add_to_group_noop_of_mem {inv : Inventory} {k h : String}
    (hp : PresentMem inv k h) : add_to_group inv k h = Except.ok inv := by
  obtain ⟨g0, hs0, hg0, hh0, hmem0⟩ := hp
  rcases add_to_group_cases inv k h with
    ⟨g, hs, hg, hh, hmem, heq⟩ | ⟨g, hs, hg, hh, hmem, heq⟩ | ⟨hg, heq⟩ |
    ⟨hg, heq⟩ | ⟨hg, heq⟩
  · exact heq
  · rw [hg0] at hg
    injection hg with hg
    injection hg with hg
    subst hg
    rw [hh0] at hh
    injection hh with hh
    subst hh
    exact absurd hmem0 hmem
  · rw [hg0] at hg; simp at hg
  · obtain ⟨m, hm⟩ := hg
    rw [hg0] at hm; simp at hm
  · obtain ⟨g1, hg1, hh1⟩ := hg
    rw [hg0] at hg1
    injection hg1 with hg1
    injection hg1 with hg1
    subst hg1
    rw [hh0] at hh1
    simp at hh1

theorem add_to_group_nodup {inv : Inventory} {k h : String}
    (hn : ∀ k', (groupHosts inv k').Nodup) :
    ∀ k', (groupHosts (genInv (add_to_group inv k h)) k').Nodup := by
  intro k'
  rcases add_to_group_cases inv k h with
    ⟨g, hs, hg, hh, hmem, heq⟩ | ⟨g, hs, hg, hh, hmem, heq⟩ | ⟨hg, heq⟩ |
    ⟨hg, heq⟩ | ⟨hg, heq⟩ <;> rw [heq] <;> unfold genInv
  · exact hn k'
  · by_cases hk : k' = k
    · subst hk
      rw [groupHosts_dictSet_self]
      have hnk := hn k'
      rw [groupHosts_entry hg hh] at hnk
      simp only [Option.getD_some]
      rw [← List.concat_eq_append]
      exact List.Nodup.concat hmem hnk
    · rw [groupHosts_dictSet_ne _ _ _ _ hk]; exact hn k'
  · by_cases hk : k' = k
    · subst hk
      rw [groupHosts_dictSet_self]
      simp
    · rw [groupHosts_dictSet_ne _ _ _ _ hk]; exact hn k'
  · exact hn k'
  · exact hn k'

/-! ## Lemmas about `add_chain` -/

theorem add_chain_cons (inv : Inventory) (k : String) (rest : List String)
    (h : String) :
    add_chain inv (k :: rest) h =
      match add_to_group inv k h with
      | .ok inv' => add_chain inv' rest h
      | .error inv' => .error inv' := rfl

theorem add_chain_meta_preserved {h : String} :
    ∀ (ks : List String) (inv : Inventory) (m : List (String × HostInfo)),
      dictGet inv "_meta" = some (InvEntry.meta m) →
      dictGet (genInv (add_chain inv ks h)) "_meta" = some (InvEntry.meta m) := by
  intro ks
  induction ks with
  | nil => intro inv m hm; exact hm
  | cons k rest ih =>
    intro inv m hm
    rw [add_chain]
    cases hstep : add_to_group inv k h with
    | ok inv1 =>
      have h1 := add_to_group_meta_preserved hm (k := k) (h := h)
      rw [hstep] at h1
      exact ih inv1 m h1
    | error inv1 =>
      have h1 : inv1 = inv := add_to_group_error_eq hstep
      subst h1
      exact hm

theorem add_chain_presentMem_preserved {h k' h' : String} :
    ∀ (ks : List String) (inv : Inventory), PresentMem inv k' h' →
      PresentMem (genInv (add_chain inv ks h)) k' h' := by
  intro ks
  induction ks with
  | nil => intro inv hp; exact hp
  | cons k rest ih =>
    intro inv hp
    rw [add_chain]
    cases hstep : add_to_group inv k h with
    | ok inv1 =>
      have h1 := PresentMem_preserved_add hp (k := k) (h := h)
      rw [hstep] at h1
      exact ih inv1 h1
    | error inv1 =>
      have h1 : inv1 = inv := add_to_group_error_eq hstep
      subst h1
      exact hp

theorem add_chain_replay {h : String} :
    ∀ (ks : List String) (inv : Inventory),
      add_chain (genInv (add_chain inv ks h)) ks h = add_chain inv ks h := by
  intro ks
  induction ks with
  | nil => intro inv; rfl
  | cons k rest ih =>
    intro inv
    cases hstep : add_to_group inv k h with
    | ok inv1 =>
      have hres : add_chain inv (k :: rest) h = add_chain inv1 rest h := by
        rw [add_chain_cons, hstep]
      rw [hres]
      have hpm : PresentMem (genInv (add_chain inv1 rest h)) k h :=
        add_chain_presentMem_preserved rest inv1 (PresentMem_of_add_ok hstep)
      rw [add_chain_cons, add_to_group_noop_of_mem hpm]
      exact ih inv1
    | error inv1 =>
      have h1 : inv1 = inv := add_to_group_error_eq hstep
      rw [h1] at hstep
      have hres : add_chain inv (k :: rest) h = Except.error inv := by
        rw [add_chain_cons, hstep]
      rw [hres]
      show add_chain inv (k :: rest) h = Except.error inv
      rw [add_chain_cons, hstep]

/-- The four sequential `_add_to_group` calls of `_process_instance`, as an
`add_chain`. -/
theorem bind_eq_add_chain (inv : Inventory) (h k1 k2 k3 k4 : String) :
    (do
      let a ← add_to_group inv k1 h
      let b ← add_to_group a k2 h
      let c ← add_to_group b k3 h
      add_to_group c k4 h)
    = add_chain inv [k1, k2, k3, k4] h := by
  rw [add_chain_cons]
  cases h1 : add_to_group inv k1 h with
  | error e => rfl
  | ok a =>
    show (do
        let b ← add_to_group a k2 h
        let c ← add_to_group b k3 h
        add_to_group c k4 h) = add_chain a [k2, k3, k4] h
    rw [add_chain_cons]
    cases h2 : add_to_group a k2 h with
    | error e => rfl
    | ok b =>
      show (do
          let c ← add_to_group b k3 h
          add_to_group c k4 h) = add_chain b [k3, k4] h
      rw [add_chain_cons]
      cases h3 : add_to_group b k3 h with
      | error e => rfl
      | ok c =>
        show add_to_group c k4 h = add_chain c [k4] h
        rw [add_chain_cons]
        cases h4 : add_to_group c k4 h with
        | error e => rfl
        | ok d => rfl

/-! ## C7: idempotence of group insertion and instance processing -/

/-- The `set_hostvar`-then-four-group-adds core of `_process_instance` is
idempotent for any start inventory. -/
theorem process_core_idem (inv : Inventory) (hostname : String) (hv : HostInfo)
    (k1 k2 k3 k4 : String) :
    genInv (set_hostvar (genInv (set_hostvar inv hostname hv >>= fun j => (do
        let a ← add_to_group j k1 hostname
        let b ← add_to_group a k2 hostname
        let c ← add_to_group b k3 hostname
        add_to_group c k4 hostname))) hostname hv >>= fun j => (do
        let a ← add_to_group j k1 hostname
        let b ← add_to_group a k2 hostname
        let c ← add_to_group b k3 hostname
        add_to_group c k4 hostname))
      = genInv (set_hostvar inv hostname hv >>= fun j => (do
        let a ← add_to_group j k1 hostname
        let b ← add_to_group a k2 hostname
        let c ← add_to_group b k3 hostname
        add_to_group c k4 hostname)) := by
  have hfun : (fun j => (do
      let a ← add_to_group j k1 hostname
      let b ← add_to_group a k2 hostname
      let c ← add_to_group b k3 hostname
      add_to_group c k4 hostname) : Inventory → Except Inventory Inventory)
      = fun j => add_chain j [k1, k2, k3, k4] hostname :=
    funext fun j => bind_eq_add_chain j hostname k1 k2 k3 k4
  rw [hfun]
  cases hsv : set_hostvar inv hostname hv with
  | error inv0 =>
    have h0 : inv0 = inv := set_hostvar_error_eq hsv
    rw [except_bind_error]
    show genInv (set_hostvar inv0 hostname hv >>= fun j =>
      add_chain j [k1, k2, k3, k4] hostname) = genInv (Except.error inv0)
    rw [h0, hsv, except_bind_error]
    rw [h0]
  | ok inv1 =>
    obtain ⟨m, hm, hinv1⟩ := set_hostvar_ok_inv hsv
    rw [except_bind_ok]
    have hm1 : dictGet inv1 "_meta" = some (InvEntry.meta (dictSet m hostname hv)) := by
      rw [hinv1]; exact dictGet_dictSet_self _ _ _
    have hmr : dictGet (genInv (add_chain inv1 [k1, k2, k3, k4] hostname)) "_meta"
        = some (InvEntry.meta (dictSet m hostname hv)) :=
      add_chain_meta_preserved [k1, k2, k3, k4] inv1 _ hm1
    have hsv2 : set_hostvar (genInv (add_chain inv1 [k1, k2, k3, k4] hostname))
        hostname hv
        = Except.ok (genInv (add_chain inv1 [k1, k2, k3, k4] hostname)) :=
      set_hostvar_noop hmr (dictGet_dictSet_self _ _ _)
    rw [hsv2, except_bind_ok, add_chain_replay]

theorem process_instance_idem (inv : Inventory) (i : Instance) :
    process_instance (process_instance inv i) i = process_instance inv i := by
  unfold process_instance process_instance_body
  cases hbt : buildTags i.tags with
  | none => simp [genInv]
  | some tags =>
    cases ht : truthyStr (dictGet tags "Environment") with
    | none => simp [ht, genInv]
    | some environment =>
      cases hp : truthyStr i.publicIpAddress with
      | none => simp [ht, hp, genInv]
      | some pip =>
        simp only [ht, hp]
        exact process_core_idem inv _ _ "all" "web_servers" environment _

/-- C7: group insertion in the API-backed generator is idempotent: re-adding
a hostname already present in a group host list leaves the document
unchanged, and processing the same instance twice yields the same document
(hence the same group lists) as processing it once. -/
theorem group_insertion_idempotent :
    (∀ (inv : Inventory) (g : String) (gr : InvGroup) (hs : List String)
        (h : String),
        dictGet inv g = some (InvEntry.group gr) → gr.hosts = some hs → h ∈ hs →
        add_to_group inv g h = Except.ok inv) ∧
    (∀ (inv : Inventory) (i : Instance),
        process_instance (process_instance inv i) i = process_instance inv i) :=
  ⟨fun _ g gr hs h h1 h2 h3 => add_to_group_noop_of_mem ⟨gr, hs, h1, h2, h3⟩,
   process_instance_idem⟩

/-- Witness for C7 at a concrete inventory and instance. -/
theorem group_insertion_idempotent_witness :
    add_to_group
        [("_meta", InvEntry.meta []),
         ("web_servers", InvEntry.group ⟨some ["h1"], none⟩)] "web_servers" "h1"
      = Except.ok
        [("_meta", InvEntry.meta []),
         ("web_servers", InvEntry.group ⟨some ["h1"], none⟩)] ∧
    process_instance (process_instance inventory_init t3Instance) t3Instance
      = process_instance inventory_init t3Instance :=
  ⟨group_insertion_idempotent.1
      [("_meta", InvEntry.meta []),
       ("web_servers", InvEntry.group ⟨some ["h1"], none⟩)]
      "web_servers" ⟨some ["h1"], none⟩ ["h1"] "h1" (by decide) rfl (by decide),
   group_insertion_idempotent.2 inventory_init t3Instance⟩

/-! ## C6: error semantics of the API-backed generator -/

theorem ec2_go_cons (inv : Inventory) (r : Reservation) (rs : List Reservation) :
    ec2_go inv (r :: rs) =
      match r.instances with
      | none => inv
      | some is => ec2_go (is.foldl process_instance inv) rs := rfl

theorem process_skip_of_bad_tags {i : Instance} (hbt : buildTags i.tags = none)
    (inv : Inventory) : process_instance inv i = inv := by
  unfold process_instance process_instance_body
  rw [hbt]
  simp [genInv]

theorem ec2_go_partial {r : Reservation} {rs2 : List Reservation}
    (hr : r.instances = none) :
    ∀ (rs1 : List Reservation) (ls : List (List Instance)) (inv : Inventory),
      collectInstances rs1 = some ls →
      ec2_go inv (rs1 ++ r :: rs2) = ls.flatten.foldl process_instance inv := by
  intro rs1
  induction rs1 with
  | nil =>
    intro ls inv hc
    have hls : ls = [] := by simpa [collectInstances] using hc.symm
    subst hls
    rw [List.nil_append, ec2_go_cons, hr]
    simp
  | cons r1 rest ih =>
    intro ls inv hc
    unfold collectInstances at hc
    cases h1 : r1.instances with
    | none => rw [h1] at hc; simp at hc
    | some is1 =>
      rw [h1] at hc
      cases h2 : collectInstances rest with
      | none => rw [h2] at hc; simp at hc
      | some ls' =>
        rw [h2] at hc
        simp at hc
        subst hc
        rw [List.cons_append, ec2_go_cons]
        simp only [h1]
        rw [ih ls' _ h2, List.flatten_cons, List.foldl_append]

theorem foldl_process_skip {i : Instance} (hbt : buildTags i.tags = none) :
    ∀ (l1 l2 : List Instance) (inv : Inventory),
      List.foldl process_instance inv (l1 ++ i :: l2)
        = List.foldl process_instance inv (l1 ++ l2) := by
  intro l1
  induction l1 with
  | nil =>
    intro l2 inv
    simp only [List.nil_append, List.foldl_cons]
    rw [process_skip_of_bad_tags hbt]
  | cons j rest ih =>
    intro l2 inv
    simp only [List.cons_append, List.foldl_cons]
    exact ih l2 (process_instance inv j)

/-- C6 (amended): an error from the API call makes `generate_inventory`
return the partial document built from the reservations before the failure
(the fresh document when the call itself raised); an error raised while
extracting an instance's tags skips that instance cleanly, leaving the rest
of the batch processed as if the instance were absent. -/
theorem ec2_error_semantics :
    (ec2_generate none = inventory_init) ∧
    (∀ (rs1 : List Reservation) (ls : List (List Instance)) (r : Reservation)
        (rs2 : List Reservation),
        collectInstances rs1 = some ls → r.instances = none →
        ec2_generate (some (rs1 ++ r :: rs2))
          = ls.flatten.foldl process_instance inventory_init) ∧
    (∀ (inv : Inventory) (i : Instance), buildTags i.tags = none →
        process_instance inv i = inv) ∧
    (∀ (l1 l2 : List Instance) (i : Instance) (inv : Inventory),
        buildTags i.tags = none →
        List.foldl process_instance inv (l1 ++ i :: l2)
          = List.foldl process_instance inv (l1 ++ l2)) :=
  ⟨rfl,
   fun rs1 ls r rs2 hc hr => ec2_go_partial hr rs1 ls inventory_init hc,
   fun inv i hbt => process_skip_of_bad_tags hbt inv,
   fun l1 l2 i inv hbt => foldl_process_skip hbt l1 l2 inv⟩

/-- Counterexample for C6 as stated: processing `metaInstance` raises inside
`_add_to_group` (its environment tag is the reserved key `_meta`), yet the
instance is not skipped: its hostvars entry and its membership in `all` and
`web_servers` persist in the document. -/
theorem instance_error_leaves_partial_entries :
    exceptOk (process_instance_body inventory_init metaInstance) = false ∧
    process_instance inventory_init metaInstance ≠ inventory_init ∧
    "_meta-unknown" ∈ groupHosts (process_instance inventory_init metaInstance)
      "web_servers" ∧
    (get_host_vars (process_instance inventory_init metaInstance)
      "_meta-unknown").isSome = true :=
  ⟨by decide, by decide, by decide, by decide⟩

/-- Witness for C6 at concrete reservation lists and instances. -/
theorem ec2_error_semantics_witness :
    ec2_generate (some ([Reservation.mk (some [t3Instance])] ++
        Reservation.mk none :: []))
      = [[t3Instance]].flatten.foldl process_instance inventory_init ∧
    process_instance inventory_init badTagInstance = inventory_init ∧
    List.foldl process_instance inventory_init ([t3Instance] ++ badTagInstance :: [])
      = List.foldl process_instance inventory_init ([t3Instance] ++ []) :=
  ⟨ec2_error_semantics.2.1 [Reservation.mk (some [t3Instance])] [[t3Instance]]
      (Reservation.mk none) [] (by decide) rfl,
   ec2_error_semantics.2.2.1 inventory_init badTagInstance (by decide),
   ec2_error_semantics.2.2.2 [t3Instance] [] badTagInstance inventory_init
      (by decide)⟩

/-! ## C9: instance-type group naming -/

theorem add_chain_nil (inv : Inventory) (h : String) :
    add_chain inv [] h = Except.ok inv := rfl

theorem groupKeyOk_dictSet_ne (inv : Inventory) (k k' : String) (e : InvEntry)
    (h : k' ≠ k) : groupKeyOk (dictSet inv k e) k' = groupKeyOk inv k' := by
  unfold groupKeyOk
  rw [dictGet_dictSet_ne _ _ _ _ h]

theorem add_to_group_ok_of_keyOk {inv : Inventory} {k h : String}
    (hk : groupKeyOk inv k = true) :
    ∃ inv', add_to_group inv k h = Except.ok inv' ∧ h ∈ groupHosts inv' k ∧
      (∀ k' h', h' ∈ groupHosts inv k' → h' ∈ groupHosts inv' k') ∧
      (∀ k', groupKeyOk inv k' = true → groupKeyOk inv' k' = true) := by
  rcases add_to_group_cases inv k h with
    ⟨g, hs, hg, hh, hmem, heq⟩ | ⟨g, hs, hg, hh, hmem, heq⟩ | ⟨hg, heq⟩ |
    ⟨hg, heq⟩ | ⟨hg, heq⟩
  · exact ⟨inv, heq, by rw [groupHosts_entry hg hh]; exact hmem,
      fun _ _ hx => hx, fun _ hx => hx⟩
  · refine ⟨_, heq, ?_, ?_, ?_⟩
    · rw [groupHosts_dictSet_self]; simp
    · intro k' h' hx
      by_cases hke : k' = k
      · subst hke
        rw [groupHosts_entry hg hh] at hx
        rw [groupHosts_dictSet_self]
        simp [hx]
      · rwa [groupHosts_dictSet_ne _ _ _ _ hke]
    · intro k' hx
      by_cases hke : k' = k
      · subst hke
        unfold groupKeyOk
        rw [dictGet_dictSet_self]
        simp
      · rwa [groupKeyOk_dictSet_ne _ _ _ _ hke]
  · refine ⟨_, heq, ?_, ?_, ?_⟩
    · rw [groupHosts_dictSet_self]; simp
    · intro k' h' hx
      by_cases hke : k' = k
      · subst hke
        rw [groupHosts_of_get_none hg] at hx
        simp at hx
      · rwa [groupHosts_dictSet_ne _ _ _ _ hke]
    · intro k' hx
      by_cases hke : k' = k
      · subst hke
        unfold groupKeyOk
        rw [dictGet_dictSet_self]
        simp
      · rwa [groupKeyOk_dictSet_ne _ _ _ _ hke]
  · obtain ⟨m, hm⟩ := hg
    unfold groupKeyOk at hk
    rw [hm] at hk
    simp at hk
  · obtain ⟨g, hg2, hh2⟩ := hg
    unfold groupKeyOk at hk
    rw [hg2] at hk
    simp [hh2] at hk

theorem add_chain4_mem {inv1 : Inventory} {hostname k1 k2 k3 k4 : String}
    (hk1 : groupKeyOk inv1 k1 = true) (hk2 : groupKeyOk inv1 k2 = true)
    (hk3 : groupKeyOk inv1 k3 = true) (hk4 : groupKeyOk inv1 k4 = true) :
    hostname ∈ groupHosts (genInv (add_chain inv1 [k1, k2, k3, k4] hostname)) k4 := by
  obtain ⟨invA, hA, hmemA, hpresA, hokA⟩ :=
    add_to_group_ok_of_keyOk hk1 (h := hostname)
  obtain ⟨invB, hB, hmemB, hpresB, hokB⟩ :=
    add_to_group_ok_of_keyOk (hokA _ hk2) (h := hostname)
  obtain ⟨invC, hC, hmemC, hpresC, hokC⟩ :=
    add_to_group_ok_of_keyOk (hokB _ (hokA _ hk3)) (h := hostname)
  obtain ⟨invD, hD, hmemD, hpresD, hokD⟩ :=
    add_to_group_ok_of_keyOk (hokC _ (hokB _ (hokA _ hk4))) (h := hostname)
  have hchain : add_chain inv1 [k1, k2, k3, k4] hostname = Except.ok invD := by
    simp only [add_chain_cons, hA, hB, hC, hD, add_chain_nil]
  rw [hchain]
  exact hmemD

/-- C9: whenever the API-backed generator inserts an instance whose
`InstanceType` is `t`, the host is added to the group named `type_` followed
by `t` with every `.` replaced by `_`. -/
theorem instance_type_group_name (inv : Inventory) (i : Instance)
    (tags : List (String × String)) (env pip t : String)
    (hmeta : ∃ m, dictGet inv "_meta" = some (InvEntry.meta m))
    (h1 : groupKeyOk inv "all" = true)
    (h2 : groupKeyOk inv "web_servers" = true)
    (h3 : groupKeyOk inv env = true)
    (h4 : groupKeyOk inv ("type_" ++ replace_dots t) = true)
    (hbt : buildTags i.tags = some tags)
    (henv : truthyStr (dictGet tags "Environment") = some env)
    (hpip : truthyStr i.publicIpAddress = some pip)
    (hit : i.instanceType = some t) :
    (env ++ "-" ++ (dictGet tags "Name").getD "unknown")
      ∈ groupHosts (process_instance inv i) ("type_" ++ replace_dots t) := by
  obtain ⟨m, hm⟩ := hmeta
  have hne_env : env ≠ "_meta" := by
    intro he
    rw [he] at h3
    unfold groupKeyOk at h3
    rw [hm] at h3
    simp at h3
  have hne_t : ("type_" ++ replace_dots t) ≠ "_meta" := by
    intro he
    rw [he] at h4
    unfold groupKeyOk at h4
    rw [hm] at h4
    simp at h4
  unfold process_instance process_instance_body
  rw [hbt]
  simp only [henv, hpip, hit, Option.getD_some]
  rw [set_hostvar_ok_of_meta hm, except_bind_ok, bind_eq_add_chain]
  apply add_chain4_mem
  · rw [groupKeyOk_dictSet_ne _ _ _ _ (by decide)]; exact h1
  · rw [groupKeyOk_dictSet_ne _ _ _ _ (by decide)]; exact h2
  · rw [groupKeyOk_dictSet_ne _ _ _ _ hne_env]; exact h3
  · rw [groupKeyOk_dictSet_ne _ _ _ _ hne_t]; exact h4

/-- Witness for C9: a `t3.micro` instance produces the group
`type_t3_micro` in the API-backed generator's document. -/
theorem instance_type_group_name_witness :
    ("dev" ++ "-" ++
        ((dictGet [("Environment", "dev"), ("Name", "web")] "Name").getD "unknown"))
      ∈ groupHosts (ec2_generate (some [Reservation.mk (some [t3Instance])]))
        ("type_" ++ replace_dots "t3.micro") :=
  instance_type_group_name inventory_init t3Instance
    [("Environment", "dev"), ("Name", "web")] "dev" "3.3.3.3" "t3.micro"
    ⟨[], by decide⟩ (by decide) (by decide) (by decide) (by decide)
    (by decide) (by decide) (by decide) (by decide)

/-! ## Duplicate-freedom of group host lists -/

theorem add_chain_nodup {h : String} :
    ∀ (ks : List String) (inv : Inventory),
      (∀ k, (groupHosts inv k).Nodup) →
      ∀ k, (groupHosts (genInv (add_chain inv ks h)) k).Nodup := by
  intro ks
  induction ks with
  | nil => intro inv hn k; exact hn k
  | cons kk rest ih =>
    intro inv hn k
    rw [add_chain_cons]
    cases hstep : add_to_group inv kk h with
    | ok inv1 =>
      have h1 : ∀ k', (groupHosts inv1 k').Nodup := by
        intro k'
        have hx := add_to_group_nodup hn (k := kk) (h := h) k'
        rwa [hstep] at hx
      exact ih inv1 h1 k
    | error inv1 =>
      have h1 : inv1 = inv := add_to_group_error_eq hstep
      rw [h1]
      exact hn k

/-- The `set_hostvar`-then-four-group-adds core of `_process_instance`
preserves duplicate-freedom of every group host list. -/
theorem process_core_nodup (inv : Inventory) (hostname : String) (hv : HostInfo)
    (k1 k2 k3 k4 : String) (hn : ∀ k, (groupHosts inv k).Nodup) :
    ∀ k, (groupHosts (genInv (set_hostvar inv hostname hv >>= fun j => (do
        let a ← add_to_group j k1 hostname
        let b ← add_to_group a k2 hostname
        let c ← add_to_group b k3 hostname
        add_to_group c k4 hostname))) k).Nodup := by
  have hfun : (fun j => (do
      let a ← add_to_group j k1 hostname
      let b ← add_to_group a k2 hostname
      let c ← add_to_group b k3 hostname
      add_to_group c k4 hostname) : Inventory → Except Inventory Inventory)
      = fun j => add_chain j [k1, k2, k3, k4] hostname :=
    funext fun j => bind_eq_add_chain j hostname k1 k2 k3 k4
  rw [hfun]
  cases hsv : set_hostvar inv hostname hv with
  | error inv0 =>
    rw [except_bind_error]
    have h0 : inv0 = inv := set_hostvar_error_eq hsv
    intro k
    show (groupHosts inv0 k).Nodup
    rw [h0]
    exact hn k
  | ok inv1 =>
    rw [except_bind_ok]
    have h1 : ∀ k, (groupHosts inv1 k).Nodup := by
      intro k
      have hx := set_hostvar_groupHosts inv hostname hv k
      rw [hsv] at hx
      show (groupHosts inv1 k).Nodup
      rw [show groupHosts inv1 k = groupHosts (genInv (Except.ok inv1)) k from rfl, hx]
      exact hn k
    exact add_chain_nodup [k1, k2, k3, k4] inv1 h1

theorem process_instance_nodup (inv : Inventory) (i : Instance)
    (hn : ∀ k, (groupHosts inv k).Nodup) :
    ∀ k, (groupHosts (process_instance inv i) k).Nodup := by
  unfold process_instance process_instance_body
  cases hbt : buildTags i.tags with
  | none => intro k; exact hn k
  | some tags =>
    cases ht : truthyStr (dictGet tags "Environment") with
    | none => simp only [ht, genInv]; exact hn
    | some environment =>
      cases hp : truthyStr i.publicIpAddress with
      | none => simp only [ht, hp, genInv]; exact hn
      | some pip =>
        simp only [ht, hp, genInv]
        exact process_core_nodup inv _ _ "all" "web_servers" environment _ hn

theorem foldl_process_nodup :
    ∀ (l : List Instance) (inv : Inventory),
      (∀ k, (groupHosts inv k).Nodup) →
      ∀ k, (groupHosts (List.foldl process_instance inv l) k).Nodup := by
  intro l
  induction l with
  | nil => intro inv hn; exact hn
  | cons i rest ih =>
    intro inv hn
    simp only [List.foldl_cons]
    exact ih _ (process_instance_nodup inv i hn)

theorem ec2_go_nodup :
    ∀ (rs : List Reservation) (inv : Inventory),
      (∀ k, (groupHosts inv k).Nodup) →
      ∀ k, (groupHosts (ec2_go inv rs) k).Nodup := by
  intro rs
  induction rs with
  | nil => intro inv hn; exact hn
  | cons r rest ih =>
    intro inv hn
    rw [ec2_go_cons]
    cases r.instances with
    | none => exact hn
    | some is => exact ih _ (foldl_process_nodup is inv hn)

theorem inventory_init_nodup : ∀ k, (groupHosts inventory_init k).Nodup := by
  intro k
  unfold groupHosts inventory_init
  by_cases h : "_meta" = k <;> simp [dictGet, h]

theorem ec2_generate_nodup (resp : Option (List Reservation)) :
    ∀ k, (groupHosts (ec2_generate resp) k).Nodup := by
  cases resp with
  | none => exact inventory_init_nodup
  | some rs => exact ec2_go_nodup rs inventory_init inventory_init_nodup

/-- Counterexample for C2 as stated: with no Terraform state anywhere and two
running `dev`-tagged instances, the state-backed generator's AWS fallback
appends `dev-web-server` to the `web_servers` host list twice. -/
theorem fallback_duplicates_hostname :
    exceptOk (tf_generate wDupFallback none) = true ∧
    List.count "dev-web-server"
      (groupHosts (genInv (tf_generate wDupFallback none)) "web_servers") = 2 :=
  ⟨by decide, by decide⟩

/-! ## Characterization of `_add_host_to_inventory` -/

theorem ensure_group_mem {inv : Inventory} {k : String} {g : InvGroup}
    (hm : dictMem inv k = true) : ensure_group inv k g = inv := by
  simp [ensure_group, hm]

theorem ensure_group_not_mem {inv : Inventory} {k : String} {g : InvGroup}
    (hm : dictMem inv k = false) :
    ensure_group inv k g = dictSet inv k (InvEntry.group g) := by
  simp [ensure_group, hm]

theorem append_group_host_spec {inv : Inventory} {k : String} {g : InvGroup}
    {hs : List String} (hg : dictGet inv k = some (InvEntry.group g))
    (hh : g.hosts = some hs) (h : String) :
    append_group_host inv k h =
      Except.ok (dictSet inv k (InvEntry.group ⟨some (hs ++ [h]), g.vars⟩)) := by
  unfold append_group_host
  rw [hg]
  simp [hh]

theorem groupHosts_congr {a b : Inventory} {k : String}
    (h : dictGet a k = dictGet b k) : groupHosts a k = groupHosts b k := by
  unfold groupHosts
  rw [h]

/-- One `if k not in inventory: create` step followed by the
`inventory[k]['hosts'].append(hostname)` step, for a key whose entry (when
present) is a group with a `hosts` list. -/
theorem ensure_append_spec (inv : Inventory) (k h : String) (gNew : InvGroup)
    (hsNew : gNew.hosts = some [])
    (hOk : ∀ e, dictGet inv k = some e →
      ∃ g hs, e = InvEntry.group g ∧ g.hosts = some hs) :
    ∃ inv', append_group_host (ensure_group inv k gNew) k h = Except.ok inv' ∧
      groupHosts inv' k = groupHosts inv k ++ [h] ∧
      (∀ k', k' ≠ k → dictGet inv' k' = dictGet inv k') ∧
      (∃ g hs, dictGet inv' k = some (InvEntry.group g) ∧ g.hosts = some hs) := by
  cases hg : dictGet inv k with
  | none =>
    have hmem : dictMem inv k = false := by simp [dictMem, hg]
    rw [ensure_group_not_mem hmem]
    rw [append_group_host_spec (dictGet_dictSet_self inv k _) hsNew h]
    refine ⟨_, rfl, ?_, ?_, ?_⟩
    · rw [dictSet_dictSet_self, groupHosts_dictSet_self, groupHosts_of_get_none hg]
      simp
    · intro k' hk
      rw [dictSet_dictSet_self, dictGet_dictSet_ne _ _ _ _ hk]
    · rw [dictSet_dictSet_self]
      exact ⟨_, _, dictGet_dictSet_self _ _ _, rfl⟩
  | some e =>
    obtain ⟨g, hs, he, hh⟩ := hOk e hg
    subst he
    have hmem : dictMem inv k = true := by simp [dictMem, hg]
    rw [ensure_group_mem hmem]
    rw [append_group_host_spec hg hh h]
    refine ⟨_, rfl, ?_, ?_, ?_⟩
    · rw [groupHosts_dictSet_self, groupHosts_entry hg hh]
      simp
    · intro k' hk
      exact dictGet_dictSet_ne _ _ _ _ hk
    · exact ⟨_, _, dictGet_dictSet_self _ _ _, rfl⟩

/-- Full characterization of `_add_host_to_inventory` on a well-formed
inventory for an environment name avoiding the reserved keys: it succeeds,
appends the deterministic hostname to the `web_servers` and environment host
lists, records the hostvars, creates or keeps the hostless `all` group, and
touches nothing else. -/
theorem add_host_spec (inv : Inventory) (env : String) (hi : HostInfo)
    (hwf : TfWF inv) (hs1 : env ≠ "_meta") (hs2 : env ≠ "all")
    (hs3 : env ≠ "web_servers") :
    ∃ inv', add_host_to_inventory inv env hi = Except.ok inv' ∧ TfWF inv' ∧
      groupHosts inv' "web_servers"
        = groupHosts inv "web_servers" ++ [env ++ "-web-server"] ∧
      groupHosts inv' env = groupHosts inv env ++ [env ++ "-web-server"] ∧
      (∀ k, k ≠ "_meta" → k ≠ "web_servers" → k ≠ env → k ≠ "all" →
          dictGet inv' k = dictGet inv k) ∧
      metaHostvars inv' = dictSet (metaHostvars inv) (env ++ "-web-server") hi ∧
      dictGet inv' "all" = some allEntry := by
  obtain ⟨m, hm⟩ := hwf.meta
  -- step 1: the hostvars assignment
  have f2 : ∀ k, k ≠ "_meta" →
      dictGet (dictSet inv "_meta"
        (InvEntry.meta (dictSet m (env ++ "-web-server") hi))) k = dictGet inv k :=
    fun k hk => dictGet_dictSet_ne _ _ _ _ hk
  -- step 2: web_servers
  obtain ⟨inv2, heq2, hgh2, hoth2, hshape2⟩ :=
    ensure_append_spec
      (dictSet inv "_meta" (InvEntry.meta (dictSet m (env ++ "-web-server") hi)))
      "web_servers" (env ++ "-web-server") ⟨some [], some []⟩ rfl
      (by
        intro e he
        rw [f2 _ (by decide)] at he
        exact hwf.groups _ e (by decide) (by decide) he)
  -- step 3: environment group
  obtain ⟨inv3, heq3, hgh3, hoth3, hshape3⟩ :=
    ensure_append_spec inv2 env (env ++ "-web-server")
      ⟨some [], some [("environment", JVal.s env)]⟩ rfl
      (by
        intro e he
        rw [hoth2 _ hs3, f2 _ hs1] at he
        exact hwf.groups _ e hs1 hs2 he)
  -- chained lookups
  have g3get : ∀ k, k ≠ "_meta" → k ≠ "web_servers" → k ≠ env →
      dictGet inv3 k = dictGet inv k := by
    intro k hk1 hk2 hk3
    rw [hoth3 _ hk3, hoth2 _ hk2, f2 _ hk1]
  have hall3 : dictGet inv3 "all" = dictGet inv "all" :=
    g3get "all" (by decide) (by decide) (Ne.symm hs2)
  have hmeta3 : dictGet inv3 "_meta"
      = some (InvEntry.meta (dictSet m (env ++ "-web-server") hi)) := by
    rw [hoth3 _ (Ne.symm hs1), hoth2 _ (by decide)]
    exact dictGet_dictSet_self _ _ _
  -- step 4: the `all` group
  have hAall : dictGet (ensure_group inv3 "all" ⟨none, some all_group_vars⟩) "all"
      = some allEntry := by
    rcases hwf.allg with hga | hga
    · have hmemA : dictMem inv3 "all" = false := by
        simp [dictMem, hall3, hga]
      rw [ensure_group_not_mem hmemA, dictGet_dictSet_self]
      rfl
    · have hmemA : dictMem inv3 "all" = true := by
        simp [dictMem, hall3, hga]
      rw [ensure_group_mem hmemA, hall3, hga]
  have hAoth : ∀ k, k ≠ "all" →
      dictGet (ensure_group inv3 "all" ⟨none, some all_group_vars⟩) k
        = dictGet inv3 k := by
    intro k hk
    rcases hwf.allg with hga | hga
    · have hmemA : dictMem inv3 "all" = false := by
        simp [dictMem, hall3, hga]
      rw [ensure_group_not_mem hmemA, dictGet_dictSet_ne _ _ _ _ hk]
    · have hmemA : dictMem inv3 "all" = true := by
        simp [dictMem, hall3, hga]
      rw [ensure_group_mem hmemA]
  refine ⟨ensure_group inv3 "all" ⟨none, some all_group_vars⟩, ?_, ?_, ?_, ?_, ?_, ?_, hAall⟩
  · simp only [add_host_to_inventory, set_hostvar_ok_of_meta hm, except_bind_ok,
      heq2, heq3]
    rfl
  · refine ⟨⟨_, by rw [hAoth _ (by decide)]; exact hmeta3⟩, ?_, Or.inr hAall⟩
    intro k e hk1 hk2 he
    rw [hAoth _ hk2] at he
    by_cases hke : k = "web_servers"
    · subst hke
      rw [hoth3 _ (Ne.symm hs3)] at he
      obtain ⟨g, hs, hget, hh⟩ := hshape2
      rw [hget] at he
      injection he with he
      exact ⟨g, hs, he.symm, hh⟩
    · by_cases hke2 : k = env
      · subst hke2
        obtain ⟨g, hs, hget, hh⟩ := hshape3
        rw [hget] at he
        injection he with he
        exact ⟨g, hs, he.symm, hh⟩
      · rw [g3get k hk1 hke hke2] at he
        exact hwf.groups k e hk1 hk2 he
  · rw [groupHosts_congr (hAoth _ (by decide)),
      groupHosts_congr (hoth3 _ (Ne.symm hs3)), hgh2,
      groupHosts_congr (f2 _ (by decide))]
  · rw [groupHosts_congr (hAoth _ hs2), hgh3,
      groupHosts_congr (hoth2 _ hs3), groupHosts_congr (f2 _ hs1)]
  · intro k hk1 hk2 hk3 hk4
    rw [hAoth _ hk4, g3get k hk1 hk2 hk3]
  · unfold metaHostvars
    rw [hAoth _ (by decide), hmeta3, hm]

/-! ## Characterization of the per-environment state loop -/

/-- Characterization of the per-environment loop of `generate_inventory` over
safe environment names: it returns normally, counts exactly the successful
environments, appends one deterministic hostname per successful environment
to `web_servers` and to that environment's own group, records the hostvars,
and leaves every other key untouched. -/
theorem tf_state_loop_spec (w : World) :
    ∀ (L : List String) (inv : Inventory) (n : Nat),
      TfWF inv →
      (∀ e ∈ L, e ≠ "_meta" ∧ e ≠ "all" ∧ e ≠ "web_servers") →
      ∃ invL, tf_state_loop w L inv n
          = Except.ok (invL, n + (L.filter (envSuccess w)).length) ∧
        TfWF invL ∧
        groupHosts invL "web_servers"
          = groupHosts inv "web_servers"
            ++ (L.filter (envSuccess w)).map (fun e => e ++ "-web-server") ∧
        (∀ k, k ≠ "_meta" → k ≠ "web_servers" → k ≠ "all" →
            groupHosts invL k
              = groupHosts inv k
                ++ ((L.filter (fun e => envSuccess w e && e == k)).map
                    (fun e => e ++ "-web-server"))) ∧
        (∀ h, (dictGet (metaHostvars inv) h).isSome = true →
            (dictGet (metaHostvars invL) h).isSome = true) ∧
        (∀ e ∈ L, envSuccess w e = true →
            (dictGet (metaHostvars invL) (e ++ "-web-server")).isSome = true) ∧
        (dictGet inv "all" = some allEntry → dictGet invL "all" = some allEntry) ∧
        ((L.filter (envSuccess w)) ≠ [] → dictGet invL "all" = some allEntry) := by
  intro L
  induction L with
  | nil =>
    intro inv n hwf _
    refine ⟨inv, by simp [tf_state_loop], hwf, by simp, ?_, fun _ hx => hx,
      by simp, fun hx => hx, by simp⟩
    intro k _ _ _
    simp
  | cons env rest ih =>
    intro inv n hwf hL
    obtain ⟨hS1, hS2, hS3⟩ := hL env (List.mem_cons_self env rest)
    have hLrest : ∀ e ∈ rest, e ≠ "_meta" ∧ e ≠ "all" ∧ e ≠ "web_servers" :=
      fun e he => hL e (List.mem_cons_of_mem env he)
    cases hsucc : envSuccess w env with
    | true =>
      have hand := hsucc
      unfold envSuccess at hand
      rw [Bool.and_eq_true] at hand
      obtain ⟨hc, hrest⟩ := hand
      cases ho : truthyOutputs (get_terraform_outputs w env) with
      | none => rw [ho] at hrest; simp at hrest
      | some o =>
        rw [ho] at hrest
        obtain ⟨hi, hext⟩ := Option.isSome_iff_exists.mp hrest
        obtain ⟨inv', hadd, hwf', hws', henv', hoth', hmeta', hall'⟩ :=
          add_host_spec inv env hi hwf hS1 hS2 hS3
        obtain ⟨invL, hloop, hwfL, hwsL, hkeyL, hmonoL, heL, hallpL, hallnL⟩ :=
          ih inv' (n + 1) hwf' hLrest
        have hlen : ((env :: rest).filter (envSuccess w)).length
            = 1 + (rest.filter (envSuccess w)).length := by
          simp [List.filter_cons, hsucc, Nat.add_comm]
        have hstep : tf_state_loop w (env :: rest) inv n
            = tf_state_loop w rest inv' (n + 1) := by
          rw [tf_state_loop, if_pos hc]
          simp only [ho, hext, hadd]
        refine ⟨invL, ?_, hwfL, ?_, ?_, ?_, ?_, ?_, ?_⟩
        · rw [hstep, hloop, hlen, ← Nat.add_assoc]
        · rw [hwsL, hws']
          simp [List.filter_cons, hsucc]
        · intro k hk1 hk2 hk3
          by_cases hke : env = k
          · subst hke
            rw [hkeyL env hk1 hk2 hk3, henv']
            simp [List.filter_cons, hsucc]
          · rw [hkeyL k hk1 hk2 hk3,
              groupHosts_congr (hoth' k hk1 hk2 (fun hx => hke hx.symm) hk3)]
            simp [List.filter_cons, hsucc, hke]
        · intro h hx
          refine hmonoL h ?_
          rw [hmeta']
          exact dictGet_isSome_dictSet _ _ _ _ hx
        · intro e he hse
          rcases List.mem_cons.mp he with rfl | he'
          · refine hmonoL _ ?_
            rw [hmeta', dictGet_dictSet_self]
            rfl
          · exact heL e he' hse
        · intro _
          exact hallpL hall'
        · intro _
          exact hallpL hall'
    | false =>
      have hstep : tf_state_loop w (env :: rest) inv n
          = tf_state_loop w rest inv n := by
        rw [tf_state_loop]
        by_cases hc : check_terraform_state w env
        · rw [if_pos hc]
          cases ho : truthyOutputs (get_terraform_outputs w env) with
          | none => rfl
          | some o =>
            cases hext : extract_host_info_from_terraform env o with
            | none => simp only [ho, hext]
            | some hi =>
              exfalso
              have : envSuccess w env = true := by
                unfold envSuccess
                rw [Bool.and_eq_true]
                exact ⟨hc, by simp [ho, hext]⟩
              rw [hsucc] at this
              exact Bool.false_ne_true this
        · rw [if_neg hc]
      obtain ⟨invL, hloop, hwfL, hwsL, hkeyL, hmonoL, heL, hallpL, hallnL⟩ :=
        ih inv n hwf hLrest
      refine ⟨invL, ?_, hwfL, ?_, ?_, hmonoL, ?_, hallpL, ?_⟩
      · rw [hstep, hloop]
        simp [List.filter_cons, hsucc]
      · rw [hwsL]
        simp [List.filter_cons, hsucc]
      · intro k hk1 hk2 hk3
        rw [hkeyL k hk1 hk2 hk3]
        simp [List.filter_cons, hsucc]
      · intro e he hse
        rcases List.mem_cons.mp he with rfl | he'
        · rw [hsucc] at hse
          exact absurd hse Bool.false_ne_true
        · exact heL e he' hse
      · intro hne
        refine hallnL ?_
        simpa [List.filter_cons, hsucc] using hne

/-! ## C1, C2 (state-backed side), C8 -/

theorem tfwf_init : TfWF inventory_init := by
  refine ⟨⟨[], by decide⟩, ?_, Or.inl (by decide)⟩
  intro k e hk1 _ he
  unfold inventory_init dictGet at he
  rw [if_neg (Ne.symm hk1)] at he
  simp [dictGet] at he

theorem groupHosts_init : ∀ k, groupHosts inventory_init k = [] := by
  intro k
  unfold groupHosts inventory_init dictGet
  by_cases h : "_meta" = k <;> simp [h, dictGet]

theorem web_server_suffix_injective :
    Function.Injective (fun e : String => e ++ "-web-server") := by
  intro a b hab
  have hd := congrArg String.data hab
  simp only [String.data_append] at hd
  exact String.ext (List.append_cancel_right hd)

/-- C1 (amended): for every built-in environment whose Terraform state yields
a host, the unfiltered document contains the host `<env>-web-server` exactly
once in the `web_servers` host list and exactly once in the `<env>` host
list, with a hostvars record; the `all` group exists with its default vars
but has no host list (the code never appends hostnames to `all`). -/
theorem state_host_exactly_once (w : World) (e : String)
    (he : e ∈ tfEnvironments) (hs : envSuccess w e = true) :
    exceptOk (tf_generate w none) = true ∧
    List.count (e ++ "-web-server")
      (groupHosts (genInv (tf_generate w none)) "web_servers") = 1 ∧
    List.count (e ++ "-web-server")
      (groupHosts (genInv (tf_generate w none)) e) = 1 ∧
    (dictGet (metaHostvars (genInv (tf_generate w none)))
      (e ++ "-web-server")).isSome = true ∧
    dictGet (genInv (tf_generate w none)) "all" = some allEntry := by
  obtain ⟨invL, hloop, hwfL, hwsL, hkeyL, hmonoL, heL, hallpL, hallnL⟩ :=
    tf_state_loop_spec w tfEnvironments inventory_init 0 tfwf_init (by decide)
  have hmem : e ∈ tfEnvironments.filter (envSuccess w) :=
    List.mem_filter.mpr ⟨he, hs⟩
  have hlenpos : (tfEnvironments.filter (envSuccess w)).length ≠ 0 := by
    intro h0
    rw [List.length_eq_zero] at h0
    rw [h0] at hmem
    simp at hmem
  have hgen : tf_generate w none = Except.ok invL := by
    unfold tf_generate envsOf
    simp only [hloop]
    rw [if_neg (by simpa using hlenpos)]
  have hginv : genInv (tf_generate w none) = invL := by rw [hgen]; rfl
  have hsafe : e ≠ "_meta" ∧ e ≠ "web_servers" ∧ e ≠ "all" := by
    fin_cases he <;> exact ⟨by decide, by decide, by decide⟩
  refine ⟨by rw [hgen]; rfl, ?_, ?_, ?_, ?_⟩
  · rw [hginv, hwsL, groupHosts_init, List.nil_append,
      List.count_map_of_injective _ _ web_server_suffix_injective,
      List.count_filter hs]
    exact List.count_eq_one_of_mem (by decide) he
  · rw [hginv, hkeyL e hsafe.1 hsafe.2.1 hsafe.2.2, groupHosts_init,
      List.nil_append,
      List.count_map_of_injective _ _ web_server_suffix_injective,
      List.count_filter (by simp [hs])]
    exact List.count_eq_one_of_mem (by decide) he
  · rw [hginv]
    exact heL e he hs
  · rw [hginv]
    refine hallnL ?_
    intro h0
    rw [h0] at hmem
    simp at hmem

/-- Witness for C1 at the concrete world `wDevState`. -/
theorem state_host_exactly_once_witness :
    exceptOk (tf_generate wDevState none) = true ∧
    List.count ("dev" ++ "-web-server")
      (groupHosts (genInv (tf_generate wDevState none)) "web_servers") = 1 ∧
    List.count ("dev" ++ "-web-server")
      (groupHosts (genInv (tf_generate wDevState none)) "dev") = 1 ∧
    (dictGet (metaHostvars (genInv (tf_generate wDevState none)))
      ("dev" ++ "-web-server")).isSome = true ∧
    dictGet (genInv (tf_generate wDevState none)) "all" = some allEntry :=
  state_host_exactly_once wDevState "dev" (by decide) (by decide)

/-- Counterexample for C1 as stated: in `wDevState` the `dev` environment has
valid state with a public address, and `dev-web-server` is in the
`web_servers` host list, but it is not a member of any host list of the
`all` group — that group is created without a `hosts` key. -/
theorem host_not_in_all_group :
    envSuccess wDevState "dev" = true ∧
    exceptOk (tf_generate wDevState none) = true ∧
    "dev-web-server" ∈ groupHosts (genInv (tf_generate wDevState none)) "web_servers" ∧
    "dev-web-server" ∉ groupHosts (genInv (tf_generate wDevState none)) "all" ∧
    dictGet (genInv (tf_generate wDevState none)) "all"
      = some (InvEntry.group ⟨none, some all_group_vars⟩) :=
  ⟨by decide, by decide, by decide, by decide, by decide⟩

/-- C2 (amended): every group host list of an API-backed document is
duplicate-free, and so is every group host list of a state-backed document
whose per-environment loop resolved at least one host (so the fallback does
not run); the fallback path appends without de-duplication. -/
theorem group_lists_nodup :
    (∀ (resp : Option (List Reservation)) (k : String),
        (groupHosts (ec2_generate resp) k).Nodup) ∧
    (∀ w : World, loopCount w none ≠ 0 →
        ∀ k, (groupHosts (genInv (tf_generate w none)) k).Nodup) := by
  refine ⟨fun resp k => ec2_generate_nodup resp k, ?_⟩
  intro w hcount k
  obtain ⟨invL, hloop, hwfL, hwsL, hkeyL, hmonoL, heL, hallpL, hallnL⟩ :=
    tf_state_loop_spec w tfEnvironments inventory_init 0 tfwf_init (by decide)
  have hlenpos : (tfEnvironments.filter (envSuccess w)).length ≠ 0 := by
    intro h0
    apply hcount
    unfold loopCount tf_state_result envsOf
    simp only [hloop]
    omega
  have hgen : tf_generate w none = Except.ok invL := by
    unfold tf_generate envsOf
    simp only [hloop]
    rw [if_neg (by simpa using hlenpos)]
  have hginv : genInv (tf_generate w none) = invL := by rw [hgen]; rfl
  rw [hginv]
  by_cases hk1 : k = "_meta"
  · subst hk1
    obtain ⟨m, hm⟩ := hwfL.meta
    rw [groupHosts_of_meta hm]
    exact List.nodup_nil
  · by_cases hk2 : k = "web_servers"
    · subst hk2
      rw [hwsL, groupHosts_init, List.nil_append]
      exact List.Nodup.map web_server_suffix_injective
        (List.Nodup.filter _ (by decide))
    · by_cases hk3 : k = "all"
      · subst hk3
        rcases hwfL.allg with hga | hga
        · rw [groupHosts_of_get_none hga]
          exact List.nodup_nil
        · unfold groupHosts
          rw [hga]
          simp [allEntry]
      · rw [hkeyL k hk1 hk2 hk3, groupHosts_init, List.nil_append]
        exact List.Nodup.map web_server_suffix_injective
          (List.Nodup.filter _ (by decide))

/-- Witness for C2 at concrete inputs. -/
theorem group_lists_nodup_witness :
    (groupHosts (ec2_generate (some [Reservation.mk (some [t3Instance, t3Instance])]))
      "web_servers").Nodup ∧
    (groupHosts (genInv (tf_generate wDevState none)) "web_servers").Nodup :=
  ⟨group_lists_nodup.1 (some [Reservation.mk (some [t3Instance, t3Instance])])
      "web_servers",
   group_lists_nodup.2 wDevState (by decide) "web_servers"⟩

/-! ## The `_meta` entry survives generation (for C8) -/

theorem ensure_group_meta {inv : Inventory} {k : String} {g : InvGroup}
    {m : List (String × HostInfo)}
    (hm : dictGet inv "_meta" = some (InvEntry.meta m)) :
    dictGet (ensure_group inv k g) "_meta" = some (InvEntry.meta m) := by
  by_cases hk : k = "_meta"
  · subst hk
    rw [ensure_group_mem (by simp [dictMem, hm])]
    exact hm
  · cases hmem : dictMem inv k with
    | true => rw [ensure_group_mem hmem]; exact hm
    | false =>
      rw [ensure_group_not_mem hmem,
        dictGet_dictSet_ne _ _ _ _ (fun hx => hk hx.symm)]
      exact hm

theorem append_group_host_meta {inv inv' : Inventory} {k h : String}
    {m : List (String × HostInfo)}
    (hm : dictGet inv "_meta" = some (InvEntry.meta m))
    (hok : append_group_host inv k h = Except.ok inv') :
    dictGet inv' "_meta" = some (InvEntry.meta m) := by
  unfold append_group_host at hok
  cases hg : dictGet inv k with
  | none => rw [hg] at hok; simp at hok
  | some e =>
    cases e with
    | meta m2 => rw [hg] at hok; simp at hok
    | group g =>
      rw [hg] at hok
      cases hh : g.hosts with
      | none => simp [hh] at hok
      | some hs =>
        simp [hh] at hok
        have hk : k ≠ "_meta" := by
          intro hx
          rw [hx, hm] at hg
          simp at hg
        rw [← hok, dictGet_dictSet_ne _ _ _ _ (fun hx => hk hx.symm)]
        exact hm

theorem except_map_ok {ε α β : Type} (f : α → β) (a : α) :
    (f <$> (Except.ok a : Except ε α)) = Except.ok (f a) := rfl

theorem except_map_error {ε α β : Type} (f : α → β) (e : ε) :
    (f <$> (Except.error e : Except ε α)) = Except.error e := rfl

theorem add_host_meta_of_ok {inv inv' : Inventory} {env : String} {hi : HostInfo}
    (hok : add_host_to_inventory inv env hi = Except.ok inv') :
    ∃ m, dictGet inv' "_meta" = some (InvEntry.meta m) := by
  simp only [add_host_to_inventory] at hok
  cases hsv : set_hostvar inv (env ++ "-web-server") hi with
  | error inv0 => simp [hsv, except_bind_error] at hok
  | ok inv1 =>
    simp only [hsv, except_bind_ok] at hok
    obtain ⟨m0, hm0, hinv1⟩ := set_hostvar_ok_inv hsv
    have hm1 : dictGet inv1 "_meta"
        = some (InvEntry.meta (dictSet m0 (env ++ "-web-server") hi)) := by
      rw [hinv1]; exact dictGet_dictSet_self _ _ _
    cases happ2 : append_group_host
        (ensure_group inv1 "web_servers" ⟨some [], some []⟩) "web_servers"
        (env ++ "-web-server") with
    | error e => simp [happ2, except_bind_error] at hok
    | ok inv2 =>
      simp only [happ2, except_bind_ok] at hok
      have hm2 := append_group_host_meta (ensure_group_meta hm1) happ2
      cases happ3 : append_group_host
          (ensure_group inv2 env ⟨some [], some [("environment", JVal.s env)]⟩)
          env (env ++ "-web-server") with
      | error e => simp [happ3, except_map_error] at hok
      | ok inv3 =>
        simp only [happ3, except_map_ok] at hok
        have hm3 := append_group_host_meta (ensure_group_meta hm2) happ3
        cases hok
        exact ⟨_, ensure_group_meta hm3⟩

theorem tf_state_loop_meta (w : World) :
    ∀ (L : List String) (inv : Inventory) (n : Nat) (inv' : Inventory) (n' : Nat),
      (∃ m, dictGet inv "_meta" = some (InvEntry.meta m)) →
      tf_state_loop w L inv n = Except.ok (inv', n') →
      ∃ m', dictGet inv' "_meta" = some (InvEntry.meta m') := by
  intro L
  induction L with
  | nil =>
    intro inv n inv' n' hm hstep
    simp [tf_state_loop] at hstep
    rw [← hstep.1]
    exact hm
  | cons env rest ih =>
    intro inv n inv' n' hm hstep
    rw [tf_state_loop] at hstep
    by_cases hc : check_terraform_state w env
    · rw [if_pos hc] at hstep
      cases ho : truthyOutputs (get_terraform_outputs w env) with
      | none => simp only [ho] at hstep; exact ih _ _ _ _ hm hstep
      | some o =>
        simp only [ho] at hstep
        cases hext : extract_host_info_from_terraform env o with
        | none => simp only [hext] at hstep; exact ih _ _ _ _ hm hstep
        | some hi =>
          simp only [hext] at hstep
          cases hadd : add_host_to_inventory inv env hi with
          | error e => simp [hadd] at hstep
          | ok inv1 =>
            simp only [hadd] at hstep
            exact ih _ _ _ _ (add_host_meta_of_ok hadd) hstep
    · rw [if_neg hc] at hstep
      exact ih _ _ _ _ hm hstep

theorem tf_fallback_loop_meta (se : Option String) :
    ∀ (l : List Instance) (inv inv' : Inventory),
      (∃ m, dictGet inv "_meta" = some (InvEntry.meta m)) →
      tf_fallback_loop se l inv = Except.ok inv' →
      ∃ m', dictGet inv' "_meta" = some (InvEntry.meta m') := by
  intro l
  induction l with
  | nil =>
    intro inv inv' hm hstep
    simp [tf_fallback_loop] at hstep
    rw [← hstep]
    exact hm
  | cons i rest ih =>
    intro inv inv' hm hstep
    rw [tf_fallback_loop] at hstep
    cases hext : extract_host_info_from_ec2 i with
    | none => simp only [hext] at hstep; exact ih _ _ hm hstep
    | some hi =>
      simp only [hext] at hstep
      split at hstep
      · cases hadd : add_host_to_inventory inv hi.environment hi with
        | error e => simp [hadd] at hstep
        | ok inv1 =>
          simp only [hadd] at hstep
          exact ih _ _ (add_host_meta_of_ok hadd) hstep
      · exact ih _ _ hm hstep

theorem tf_generate_meta {w : World} {se : Option String} {inv : Inventory}
    (hgen : tf_generate w se = Except.ok inv) :
    ∃ m, dictGet inv "_meta" = some (InvEntry.meta m) := by
  unfold tf_generate at hgen
  cases hloop : tf_state_loop w (envsOf se) inventory_init 0 with
  | error e => simp [hloop] at hgen
  | ok p =>
    obtain ⟨inv1, n⟩ := p
    simp only [hloop] at hgen
    have hm1 := tf_state_loop_meta w (envsOf se) inventory_init 0 inv1 n
      ⟨[], by decide⟩ hloop
    by_cases hn : (n == 0) = true
    · rw [if_pos hn] at hgen
      exact tf_fallback_loop_meta se _ inv1 inv hm1 hgen
    · rw [if_neg hn] at hgen
      cases hgen
      exact hm1

theorem process_core_meta (inv : Inventory) (hostname : String) (hv : HostInfo)
    (k1 k2 k3 k4 : String)
    (hm : ∃ m, dictGet inv "_meta" = some (InvEntry.meta m)) :
    ∃ m', dictGet (genInv (set_hostvar inv hostname hv >>= fun j => (do
        let a ← add_to_group j k1 hostname
        let b ← add_to_group a k2 hostname
        let c ← add_to_group b k3 hostname
        add_to_group c k4 hostname))) "_meta" = some (InvEntry.meta m') := by
  obtain ⟨m, hm⟩ := hm
  have hfun : (fun j => (do
      let a ← add_to_group j k1 hostname
      let b ← add_to_group a k2 hostname
      let c ← add_to_group b k3 hostname
      add_to_group c k4 hostname) : Inventory → Except Inventory Inventory)
      = fun j => add_chain j [k1, k2, k3, k4] hostname :=
    funext fun j => bind_eq_add_chain j hostname k1 k2 k3 k4
  rw [hfun]
  cases hsv : set_hostvar inv hostname hv with
  | error inv0 =>
    rw [except_bind_error]
    refine ⟨m, ?_⟩
    show dictGet inv0 "_meta" = some (InvEntry.meta m)
    rw [set_hostvar_error_eq hsv]
    exact hm
  | ok inv1 =>
    rw [except_bind_ok]
    obtain ⟨m0, hm0, hinv1⟩ := set_hostvar_ok_inv hsv
    have hm1 : dictGet inv1 "_meta"
        = some (InvEntry.meta (dictSet m0 hostname hv)) := by
      rw [hinv1]; exact dictGet_dictSet_self _ _ _
    exact ⟨_, add_chain_meta_preserved [k1, k2, k3, k4] inv1 _ hm1⟩

theorem process_instance_meta (inv : Inventory) (i : Instance)
    (hm : ∃ m, dictGet inv "_meta" = some (InvEntry.meta m)) :
    ∃ m', dictGet (process_instance inv i) "_meta" = some (InvEntry.meta m') := by
  unfold process_instance process_instance_body
  cases hbt : buildTags i.tags with
  | none => exact hm
  | some tags =>
    cases ht : truthyStr (dictGet tags "Environment") with
    | none => simp only [ht, genInv]; exact hm
    | some environment =>
      cases hp : truthyStr i.publicIpAddress with
      | none => simp only [ht, hp, genInv]; exact hm
      | some pip =>
        simp only [ht, hp]
        exact process_core_meta inv _ _ "all" "web_servers" environment _ hm

theorem foldl_process_meta :
    ∀ (l : List Instance) (inv : Inventory),
      (∃ m, dictGet inv "_meta" = some (InvEntry.meta m)) →
      ∃ m', dictGet (List.foldl process_instance inv l) "_meta"
        = some (InvEntry.meta m') := by
  intro l
  induction l with
  | nil => intro inv hm; exact hm
  | cons i rest ih =>
    intro inv hm
    simp only [List.foldl_cons]
    exact ih _ (process_instance_meta inv i hm)

theorem ec2_go_meta :
    ∀ (rs : List Reservation) (inv : Inventory),
      (∃ m, dictGet inv "_meta" = some (InvEntry.meta m)) →
      ∃ m', dictGet (ec2_go inv rs) "_meta" = some (InvEntry.meta m') := by
  intro rs
  induction rs with
  | nil => intro inv hm; exact hm
  | cons r rest ih =>
    intro inv hm
    rw [ec2_go_cons]
    cases r.instances with
    | none => exact hm
    | some is => exact ih _ (foldl_process_meta is inv hm)

theorem ec2_generate_meta (resp : Option (List Reservation)) :
    ∃ m, dictGet (ec2_generate resp) "_meta" = some (InvEntry.meta m) := by
  cases resp with
  | none => exact ⟨[], by decide⟩
  | some rs => exact ec2_go_meta rs inventory_init ⟨[], by decide⟩

theorem get_host_vars_of_meta {inv : Inventory} {m : List (String × HostInfo)}
    (hm : dictGet inv "_meta" = some (InvEntry.meta m)) (hostname : String) :
    get_host_vars inv hostname = dictGet m hostname := by
  unfold get_host_vars
  rw [hm]

/-- C8: for every hostname absent from the generated document's
`_meta.hostvars` mapping, host-mode lookup returns the empty record (`none`,
serialized as `{}`) and does not raise: the `_meta` entry of a generated
document is always the meta record, so the `.get` lookup is total. -/
theorem unknown_host_lookup_empty :
    (∀ (w : World) (se : Option String) (inv : Inventory) (hostname : String),
        tf_generate w se = Except.ok inv →
        dictGet (metaHostvars inv) hostname = none →
        (∃ m, dictGet inv "_meta" = some (InvEntry.meta m)) ∧
        get_host_vars inv hostname = none) ∧
    (∀ (resp : Option (List Reservation)) (hostname : String),
        dictGet (metaHostvars (ec2_generate resp)) hostname = none →
        (∃ m, dictGet (ec2_generate resp) "_meta" = some (InvEntry.meta m)) ∧
        get_host_vars (ec2_generate resp) hostname = none) := by
  constructor
  · intro w se inv hostname hgen hnone
    obtain ⟨m, hm⟩ := tf_generate_meta hgen
    have hmv : metaHostvars inv = m := by unfold metaHostvars; rw [hm]
    rw [hmv] at hnone
    exact ⟨⟨m, hm⟩, by rw [get_host_vars_of_meta hm]; exact hnone⟩
  · intro resp hostname hnone
    obtain ⟨m, hm⟩ := ec2_generate_meta resp
    have hmv : metaHostvars (ec2_generate resp) = m := by
      unfold metaHostvars; rw [hm]
    rw [hmv] at hnone
    exact ⟨⟨m, hm⟩, by rw [get_host_vars_of_meta hm]; exact hnone⟩

/-- Witness for C8 at concrete documents and an unknown hostname. -/
theorem unknown_host_lookup_empty_witness :
    ((∃ m, dictGet (genInv (tf_generate wDevState none)) "_meta"
        = some (InvEntry.meta m)) ∧
      get_host_vars (genInv (tf_generate wDevState none)) "no-such-host" = none) ∧
    ((∃ m, dictGet (ec2_generate none) "_meta" = some (InvEntry.meta m)) ∧
      get_host_vars (ec2_generate none) "no-such-host" = none) :=
  ⟨unknown_host_lookup_empty.1 wDevState none
      (genInv (tf_generate wDevState none)) "no-such-host" rfl (by decide),
   unknown_host_lookup_empty.2 none "no-such-host" (by decide)⟩
